import Mathlib

set_option maxRecDepth 4000

/-!
Shallow embedding of the mikroserve HTTP engine: the RateLimiter,
the Router (path-pattern compiler, matcher, middleware chain) and the
MikroServe request pipeline (CORS headers, body parsing, error mapping),
together with theorems settling the specification claims.
-/

namespace Mikro

/-- Association-list model of a JS Map / plain object: setting overwrites
the value stored at an existing key and otherwise appends at the end. -/
def alSet {α : Type} (l : List (String × α)) (k : String) (v : α) :
    List (String × α) :=
  match l with
  | [] => [(k, v)]
  | (k0, v0) :: rest => if k0 = k then (k, v) :: rest else (k0, v0) :: alSet rest k v

/-- Lookup in the association-list model (first binding for the key). -/
def alGet {α : Type} (l : List (String × α)) (k : String) : Option α :=
  match l with
  | [] => none
  | (k0, v0) :: rest => if k0 = k then some v0 else alGet rest k

/-! ## RateLimiter

Embedding of the RateLimiter class (src/unnamed/part_001).  The JS class
holds a Map from key to a mutable entry `{count, resetTime}`; time comes
from Date.now() in milliseconds, modelled as an explicit Nat argument. -/

/-- One per-key record of the limiter map: the JS object
literal with fields count and resetTime (milliseconds epoch). -/
structure Entry where
  count : Nat
  resetTime : Nat
deriving Repr, DecidableEq

/-- The immutable part of a RateLimiter: constructor arguments
limit and windowSeconds, the latter stored as windowMs = windowSeconds * 1000. -/
structure RateLimiterCfg where
  limit : Nat
  windowMs : Nat
deriving Repr, DecidableEq

/-- The mutable requests map of a RateLimiter. -/
abbrev RLState := List (String × Entry)

/-- The constructor: new RateLimiter(limit, windowSeconds) starts with an
empty requests map and windowMs = windowSeconds * 1000. -/
def RateLimiter.new (limit windowSeconds : Nat) : RateLimiterCfg × RLState :=
  (⟨limit, windowSeconds * 1000⟩, [])

/-- The key normalisation both the middleware and every RateLimiter method
perform: a falsy (empty) ip collapses to the sentinel string. -/
def rlKey (ip : String) : String := if ip = "" then "unknown" else ip

/-- RateLimiter.isAllowed(ip) at time now: a missing or expired
(resetTime < now) entry is replaced by a fresh one with count 0 and
resetTime now + windowMs; then count is incremented (also on rejected calls)
and the call is allowed iff count ≤ limit afterwards. -/
def isAllowed (cfg : RateLimiterCfg) (st : RLState) (now : Nat) (ip : String) :
    Bool × RLState :=
  let key := rlKey ip
  let entry : Entry :=
    match alGet st key with
    | some e => if e.resetTime < now then ⟨0, now + cfg.windowMs⟩ else e
    | none => ⟨0, now + cfg.windowMs⟩
  let entry2 : Entry := ⟨entry.count + 1, entry.resetTime⟩
  (decide (entry2.count ≤ cfg.limit), alSet st key entry2)

/-- RateLimiter.getRemainingRequests(ip) at time now: the full limit for a
missing or expired entry, otherwise max(0, limit - count); the subtraction
is over JS numbers, modelled by Int. -/
def getRemainingRequests (cfg : RateLimiterCfg) (st : RLState) (now : Nat)
    (ip : String) : Int :=
  let key := rlKey ip
  match alGet st key with
  | none => (cfg.limit : Int)
  | some e =>
    if e.resetTime < now then (cfg.limit : Int)
    else max 0 ((cfg.limit : Int) - (e.count : Int))

/-- RateLimiter.getResetTime(ip) at time now, in epoch seconds
(Math.floor of milliseconds / 1000, i.e. Nat division). -/
def getResetTime (cfg : RateLimiterCfg) (st : RLState) (now : Nat)
    (ip : String) : Nat :=
  let key := rlKey ip
  match alGet st key with
  | none => (now + cfg.windowMs) / 1000
  | some e => if e.resetTime < now then (now + cfg.windowMs) / 1000 else e.resetTime / 1000

/-- A sequence of isAllowed calls for one ip at the given times, returning
the list of admission results and the final map. -/
def runCalls (cfg : RateLimiterCfg) (ip : String) (st : RLState) :
    List Nat → List Bool × RLState
  | [] => ([], st)
  | t :: ts =>
    let r1 := isAllowed cfg st t ip
    let r2 := runCalls cfg ip r1.2 ts
    (r1.1 :: r2.1, r2.2)

/-! ## Router: path-pattern compilation (Router.createPathPattern)

The source compiles a path template string into a RegExp:
every occurrence of a slash, a colon and a nonempty run of non-slash
characters is replaced by a literal slash followed by the capture group
of one-or-more non-slash characters, recording the parameter name; if the
rewritten pattern then ends in slash-star, that suffix is replaced by an
optional group of a slash and a dot-star capture named wildcard; otherwise
a trailing slash, when present, becomes optional.  The whole pattern is
anchored at both ends.  Here the rewritten pattern is kept as a list of
parts (literal characters and capture groups) plus a tail marker, and the
RegExp semantics of that restricted shape is implemented directly. -/

/-- One element of the rewritten regex source: a literal character or the
one-or-more-non-slash capture group produced for a path parameter. -/
inductive RegexPart
  | lit (c : Char)
  | seg
deriving Repr, DecidableEq

/-- The anchored tail of the compiled regex: unchanged end, the optional
trailing slash, or the optional wildcard group of a slash and dot-star. -/
inductive PatTail
  | exact
  | optSlash
  | wildcard
deriving Repr, DecidableEq

/-- The compiled pattern: regex body parts, tail shape and the ordered
capture-group names (the PathPattern record of the source). -/
structure PathPattern where
  parts : List RegexPart
  tail : PatTail
  paramNames : List String
deriving Repr, DecidableEq

/-- The parameter-rewriting pass over the template characters, mirroring the
global regex replace: at a slash followed by a colon followed by at least one
non-slash character, the whole run is replaced by a literal slash and a
capture group and the run is recorded as a parameter name; anywhere else one
character is consumed literally and the scan continues. -/
def rewriteParamsF : Nat → List Char → List RegexPart × List String
  | _, [] => ([], [])
  | 0, _ => ([], [])
  | fuel + 1, x :: y :: z :: rest =>
    if x = '/' ∧ y = ':' ∧ z ≠ '/' then
      let name := (z :: rest).takeWhile (fun c => c ≠ '/')
      let r := rewriteParamsF fuel ((z :: rest).dropWhile (fun c => c ≠ '/'))
      (.lit '/' :: .seg :: r.1, name.asString :: r.2)
    else
      let r := rewriteParamsF fuel (y :: z :: rest)
      (.lit x :: r.1, r.2)
  | fuel + 1, x :: xs =>
    let r := rewriteParamsF fuel xs
    (.lit x :: r.1, r.2)

/-- The rewriting pass at full fuel: every recursive step consumes at least
one character, so fuel equal to the length always suffices (the fuel only
makes the recursion structural). -/
def rewriteParams (l : List Char) : List RegexPart × List String :=
  rewriteParamsF l.length l

/-- Whether the rewritten pattern string ends in the two characters slash
then star (the endsWith check of createPathPattern).  A capture group renders
as a parenthesised class whose last character is a closing parenthesis, so at
the string level this holds exactly when the last two parts are the literal
slash and the literal star. -/
def endsSlashStar (parts : List RegexPart) : Bool :=
  match parts.reverse with
  | .lit c1 :: .lit c2 :: _ => c1 = '*' && c2 = '/'
  | _ => false

/-- Whether the rewritten pattern string ends in a slash (the trailing-slash
replace of createPathPattern); again only a literal slash part can render a
final slash character. -/
def endsSlash (parts : List RegexPart) : Bool :=
  match parts.reverse with
  | .lit c :: _ => c = '/'
  | _ => false

/-- Router.createPathPattern: rewrite parameters, then either strip a
trailing slash-star into the wildcard tail (appending the reserved name),
or make a trailing slash optional, or keep the exact anchored end.  The lit
parts are characters of the resulting RegExp source kept uninterpreted: the
template is not escaped, so a metacharacter among them keeps its regex
meaning in the program (see the regex-source semantics below). -/
def createPathPattern (path : String) : PathPattern :=
  let r := rewriteParams path.data
  if endsSlashStar r.1 then
    ⟨r.1.dropLast.dropLast, .wildcard, r.2 ++ ["wildcard"]⟩
  else if endsSlash r.1 then
    ⟨r.1.dropLast, .optSlash, r.2⟩
  else
    ⟨r.1, .exact, r.2⟩

/-- Characters matched by the JS regex dot without the dotAll flag:
everything except the four line terminators. -/
def jsDotOk (c : Char) : Bool :=
  c ≠ Char.ofNat 10 && c ≠ Char.ofNat 13 &&
    c ≠ Char.ofNat 0x2028 && c ≠ Char.ofNat 0x2029

/-- What the anchored tail accepts on the remainder left after the parts,
and the wildcard capture it yields; a wildcard capture of none models an
undefined capture (the optional group not participating). -/
def matchTail : PatTail → List Char → Option (Option (List Char))
  | .exact, rest => if rest = [] then some none else none
  | .optSlash, rest =>
    if rest = [] then some none
    else if rest = ['/'] then some none
    else none
  | .wildcard, rest =>
    match rest with
    | [] => some none
    | c :: t =>
      if c = '/' then
        if t.all jsDotOk then some (some t) else none
      else none

/-- Greedy backtracking for one capture group: capture lengths are tried
from i downwards (the regex engine prefers the longest), returning the
first capture for which the continuation (the rest of the pattern)
succeeds on the remainder. -/
def greedyFirst {α : Type} (f : List Char → Option α) (run rest : List Char) :
    Nat → Option (List Char × α)
  | 0 => none
  | i + 1 =>
    match f (run.drop (i + 1) ++ rest) with
    | some a => some (run.take (i + 1), a)
    | none => greedyFirst f run rest i

/-- Anchored matching of the rewritten parts and tail against a path
(RegExp.exec on the restricted pattern shape), reading every lit part as an
exact character: literals match one character; a capture group matches a
nonempty run of non-slash characters, longest first with backtracking; the
tail consumes the rest.  Returns the group captures in order plus the
wildcard capture.  This exact-character reading agrees with the program
exactly when no lit part is a regex metacharacter (theorems
quantifyParts_plain and regexExec_toQPart below).  The fuel argument only
makes the recursion structural; every step consumes one part. -/
def matchPartsF : Nat → List RegexPart → PatTail → List Char →
    Option (List (List Char) × Option (List Char))
  | _, [], tl, rest => (matchTail tl rest).map (fun w => ([], w))
  | 0, _ :: _, _, _ => none
  | fuel + 1, .lit c :: ps, tl, rest =>
    match rest with
    | [] => none
    | x :: xs => if x = c then matchPartsF fuel ps tl xs else none
  | fuel + 1, .seg :: ps, tl, rest =>
    let run := rest.takeWhile (fun x => x ≠ '/')
    let after := rest.dropWhile (fun x => x ≠ '/')
    (greedyFirst (matchPartsF fuel ps tl) run after run.length).map
      (fun p => (p.1 :: p.2.1, p.2.2))

/-- Matching at full fuel (one unit per pattern part always suffices). -/
def matchParts (ps : List RegexPart) (tl : PatTail) (rest : List Char) :
    Option (List (List Char) × Option (List Char)) :=
  matchPartsF ps.length ps tl rest

/-- The params record construction of Router.match: the i-th parameter name
is assigned the i-th capture, an undefined or empty capture giving the empty
string; sequential JS property assignment is modelled by alSet. -/
def assignParams (ps : List (String × String)) :
    List String → List (Option (List Char)) → List (String × String)
  | [], _ => ps
  | n :: ns, caps =>
    let v := ((caps.head?).getD none).getD []
    assignParams (alSet ps n v.asString) ns caps.tail

/-- Pattern matching plus parameter extraction exactly as Router.match
performs them for one route: run the compiled pattern on the path, then
assign each parameter name its capture (the wildcard group, when present,
is the last capture). -/
def patMatch (pp : PathPattern) (path : String) :
    Option (List (String × String)) :=
  (matchParts pp.parts pp.tail path.data).map (fun r =>
    let caps := r.1.map some ++ (if pp.tail = .wildcard then [r.2] else [])
    assignParams [] pp.paramNames caps)

/-! ## Regex-source semantics of the literal parts

The lit parts of a compiled pattern are characters of the RegExp source, so
a metacharacter among them keeps its regex meaning in the program.  The
direct matcher above interprets every lit part as an exact character,
which coincides with the RegExp exactly on metacharacter-free templates
(theorems quantifyParts_plain and regexExec_toQPart below) but not on
templates such as the
slash a plus slash star one, whose regex rejects its own literal prefix
path.  The fragment semantics here covers ordinary characters, capture
groups, and the one-or-more quantifier applied to an ordinary character —
enough to decide such templates faithfully. -/

/-- The characters that are special in JS regex source outside character
classes (backslash, anchors, dot, alternation, quantifiers, grouping,
classes, braces). -/
def regexMeta (c : Char) : Bool :=
  c ∈ ['\\', '^', '$', '.', '|', '?', '*', '+', '(', ')', '[', ']',
    Char.ofNat 0x7b, Char.ofNat 0x7d]

/-- Whether a parts list starts with a literal quantifier character (which
would quantify the preceding atom in the regex source). -/
def quantHead : List RegexPart → Bool
  | .lit c :: _ => c = '+' || c = '*' || c = '?' || c = Char.ofNat 0x7b
  | _ => false

/-- One atom of the interpreted regex fragment: an ordinary character, an
ordinary character under the one-or-more quantifier, or a capture group. -/
inductive QPart
  | ch (c : Char)
  | chPlus (c : Char)
  | seg
deriving Repr, DecidableEq

/-- A plain part maps to the corresponding fragment atom. -/
def toQPart : RegexPart → QPart
  | .lit c => .ch c
  | .seg => .seg

/-- Regex-source interpretation of a rewritten parts list within the
fragment: an ordinary character followed by a plus becomes a quantified
atom; any other metacharacter use, or a quantifier applying to a group or
to another quantifier, is outside the fragment (none). -/
def quantifyParts : List RegexPart → Option (List QPart)
  | [] => some []
  | .seg :: rest =>
    if quantHead rest then none
    else (quantifyParts rest).map (fun qs => QPart.seg :: qs)
  | [.lit c] =>
    if regexMeta c then none
    else some [QPart.ch c]
  | .lit c :: .lit c2 :: rest2 =>
    if regexMeta c then none
    else if c2 = '+' then
      if quantHead rest2 then none
      else (quantifyParts rest2).map (fun qs => QPart.chPlus c :: qs)
    else
      if quantHead (.lit c2 :: rest2) then none
      else (quantifyParts (.lit c2 :: rest2)).map (fun qs => QPart.ch c :: qs)
  | .lit c :: .seg :: rest2 =>
    if regexMeta c then none
    else if quantHead (.seg :: rest2) then none
    else (quantifyParts (.seg :: rest2)).map (fun qs => QPart.ch c :: qs)

/-- Whether every literal part of the pattern is regex-ordinary, so the
compiled RegExp matches it verbatim. -/
def litsPlain (parts : List RegexPart) : Bool :=
  parts.all (fun p => match p with
    | .lit c => !(regexMeta c)
    | .seg => true)

/-- Anchored matching for the interpreted fragment, with the same greedy
backtracking discipline as the regex engine: a quantified character
consumes the longest run first; a capture group behaves as in matchParts;
the tail consumes the remainder.  Fuel only makes the recursion
structural. -/
def regexExecF : Nat → List QPart → PatTail → List Char →
    Option (List (List Char) × Option (List Char))
  | _, [], tl, rest => (matchTail tl rest).map (fun w => ([], w))
  | 0, _ :: _, _, _ => none
  | fuel + 1, .ch c :: ps, tl, rest =>
    match rest with
    | [] => none
    | x :: xs => if x = c then regexExecF fuel ps tl xs else none
  | fuel + 1, .chPlus c :: ps, tl, rest =>
    let run := rest.takeWhile (fun x => x = c)
    let after := rest.dropWhile (fun x => x = c)
    (greedyFirst (regexExecF fuel ps tl) run after run.length).map
      (fun p => p.2)
  | fuel + 1, .seg :: ps, tl, rest =>
    let run := rest.takeWhile (fun x => x ≠ '/')
    let after := rest.dropWhile (fun x => x ≠ '/')
    (greedyFirst (regexExecF fuel ps tl) run after run.length).map
      (fun p => (p.1 :: p.2.1, p.2.2))

/-- Fragment matching at full fuel. -/
def regexExec (ps : List QPart) (tl : PatTail) (rest : List Char) :
    Option (List (List Char) × Option (List Char)) :=
  regexExecF ps.length ps tl rest

/-! ## Middleware machinery, Router, and the request pipeline

Handlers and middlewares are modelled as state transformers over the
per-request server state (the headers set on the response object via
setHeader, plus the shared rate limiter map), with JS exception propagation:
a thrown error carries its message, and mutations made before the throw
persist, as they do on the real response object. -/

/-- The mutable state visible through the response object and the server:
res headers and the rate limiter requests map. -/
structure SrvState where
  headers : List (String × String)
  rl : RLState

/-- Effect type of handlers and middlewares: state threading plus exception
propagation (state survives a throw). -/
abbrev Eff (α : Type) : Type := SrvState → Except String α × SrvState

/-- Return for Eff. -/
def Eff.pure {α : Type} (a : α) : Eff α := fun s => (.ok a, s)

/-- Sequencing for Eff: an error short-circuits, keeping the state. -/
def Eff.bind {α β : Type} (x : Eff α) (f : α → Eff β) : Eff β := fun s =>
  match x s with
  | (.ok a, s2) => f a s2
  | (.error e, s2) => (.error e, s2)

/-- A thrown JS exception with its message. -/
def Eff.throw {α : Type} (e : String) : Eff α := fun s => (.error e, s)

/-- Values produced by the host JSON.parse, modelled structurally. -/
inductive JsVal
  | null
  | bool (b : Bool)
  | num (n : Int)
  | str (s : String)
  | arr (elems : List JsVal)
  | obj (fields : List (String × JsVal))

/-- The parsed request body, tagged by content type as parseBody produces
it: a JSON value, a form-data map, raw text, or the empty object resolved
for a body with no chunks. -/
inductive ParsedBody
  | json (v : JsVal)
  | form (fields : List (String × String))
  | text (s : String)
  | empty

/-- JS falsiness of the parsed body, for the req.body-or-empty-object
defaulting in Router.handle (empty string, 0, false and null are falsy). -/
def ParsedBody.isFalsy : ParsedBody → Bool
  | .text s => s = ""
  | .json .null => true
  | .json (.bool b) => !b
  | .json (.num n) => n = 0
  | .json (.str s) => s = ""
  | _ => false

/-- The per-request context Router.handle builds for handlers and
middlewares.  The response helpers (text, json, ...) are pure constructors
irrelevant to the claims; the req handle is modelled by the fields the
embedded code reads from it (socket.remoteAddress), plus the ambient
Date.now() clock of the request. -/
structure Context where
  params : List (String × String)
  query : List (String × String)
  body : ParsedBody
  headers : List (String × String)
  path : String
  state : List (String × String)
  remoteAddress : String
  now : Nat

/-- Bodies of handler responses as far as the claims observe them: a JSON
object of string fields (the error bodies), a string, or null. -/
inductive RespBody
  | obj (fields : List (String × String))
  | str (s : String)
  | null
deriving Repr, DecidableEq

/-- The HandlerResponse record; handledFlag models the optional handled
marker consulted by the request handler. -/
structure HandlerResponse where
  statusCode : Nat
  body : RespBody
  headers : List (String × String) := []
  isRaw : Bool := false
  handledFlag : Bool := false
deriving Repr, DecidableEq

/-- A route handler: context to response, with possible mutation and throw. -/
abbrev RouteHandler : Type := Context → Eff HandlerResponse

/-- A middleware: context and continuation to response.  The source threads
one shared index through next; for middlewares invoking their continuation
at most once (the documented contract) this equals the recursive unfolding
used here, where the continuation is handed in as an effect value. -/
abbrev Middleware : Type := Context → Eff HandlerResponse → Eff HandlerResponse

/-- A registered route. -/
structure Route where
  method : String
  path : String
  handler : RouteHandler
  middlewares : List Middleware

/-- The Router state: registered routes, global middlewares and the
path-pattern cache keyed by path template. -/
structure Router where
  routes : List Route
  globalMiddlewares : List Middleware
  pathPatterns : List (String × PathPattern)

/-- A fresh Router. -/
def Router.empty : Router := ⟨[], [], []⟩

/-- Router.use: appends a global middleware. -/
def Router.use (r : Router) (mw : Middleware) : Router :=
  { r with globalMiddlewares := r.globalMiddlewares ++ [mw] }

/-- Router.register: appends the route and caches the compiled pattern
under the path template. -/
def Router.register (r : Router) (method path : String) (handler : RouteHandler)
    (middlewares : List Middleware) : Router :=
  { r with
    routes := r.routes ++ [⟨method, path, handler, middlewares⟩],
    pathPatterns := alSet r.pathPatterns path (createPathPattern path) }

/-- The linear scan of Router.match over the route list: skip routes whose
method differs or whose cached pattern is absent or does not match; on the
first pattern match, return the route with its extracted params. -/
def matchLoop (pats : List (String × PathPattern)) (method path : String) :
    List Route → Option (Route × List (String × String))
  | [] => none
  | route :: rest =>
    if route.method ≠ method then matchLoop pats method path rest
    else
      match alGet pats route.path with
      | none => matchLoop pats method path rest
      | some pp =>
        match patMatch pp path with
        | none => matchLoop pats method path rest
        | some params => some (route, params)

/-- Router.match (named matchRoute since match is a Lean keyword). -/
def Router.matchRoute (r : Router) (method path : String) :
    Option (Route × List (String × String)) :=
  matchLoop r.pathPatterns method path r.routes

/-- Router.executeMiddlewareChain: each middleware receives the rest of the
chain as its continuation; an empty chain invokes the final handler. -/
def executeMiddlewareChain (ctx : Context) :
    List Middleware → RouteHandler → Eff HandlerResponse
  | [], finalHandler => finalHandler ctx
  | mw :: rest, finalHandler => mw ctx (executeMiddlewareChain ctx rest finalHandler)

/-- The inbound request as the pipeline sees it: the transport-level URL
parsing (pathname, query) is taken as given; empty strings model absent
method, content-type, origin and remote address. -/
structure Request where
  method : String
  path : String
  query : List (String × String)
  headers : List (String × String)
  contentType : String
  origin : String
  chunks : List String
  remoteAddress : String
  now : Nat

/-- Router.handle: resolve the route (method defaults to GET), build the
context (body defaults to the empty object when falsy, state starts empty),
and run the concatenation of global and route middlewares around the
handler; none signals no match (mapped to 404 by the caller). -/
def Router.handle (r : Router) (req : Request) (body : ParsedBody) :
    Eff (Option HandlerResponse) :=
  let method := if req.method = "" then "GET" else req.method
  let path := req.path
  match r.matchRoute method path with
  | none => Eff.pure none
  | some rp =>
    let ctx : Context :=
      ⟨rp.2, req.query, if body.isFalsy then ParsedBody.empty else body,
       req.headers, path, [], req.remoteAddress, req.now⟩
    Eff.bind
      (executeMiddlewareChain ctx (r.globalMiddlewares ++ rp.1.middlewares)
        rp.1.handler)
      (fun resp => Eff.pure (some resp))

/-! ## MikroServe request pipeline -/

/-- The server configuration fields the pipeline consumes; allowedDomains is
optional because setCorsHeaders destructures it with a wildcard default. -/
structure Config where
  debug : Bool
  allowedDomains : Option (List String)
  useHttps : Bool
  useHttp2 : Bool
  rateLimitEnabled : Bool
  requestsPerMinute : Nat

/-- Whether one character list starts with another (sub before full). -/
def startsWithList : List Char → List Char → Bool
  | [], _ => true
  | _ :: _, [] => false
  | a :: as, b :: bs => a = b && startsWithList as bs

/-- String.includes of JS: substring containment. -/
def strIncludes (s sub : String) : Bool :=
  (List.range (s.data.length + 1)).any (fun i => startsWithList sub.data (s.data.drop i))

/-- MikroServe.setCorsHeaders: allow any origin when the Origin header is
absent, the allow-list is empty or it contains the wildcard; echo a listed
origin together with Vary; otherwise set no allow-origin header; then always
set the allowed methods and headers and the preflight max-age. -/
def setCorsHeaders (hs : List (String × String)) (origin : String)
    (allowedDomainsOpt : Option (List String)) : List (String × String) :=
  let allowedDomains := allowedDomainsOpt.getD ["*"]
  let hs :=
    if origin = "" ∨ allowedDomains.length = 0 then
      alSet hs "Access-Control-Allow-Origin" "*"
    else if allowedDomains.contains "*" then
      alSet hs "Access-Control-Allow-Origin" "*"
    else if allowedDomains.contains origin then
      alSet (alSet hs "Access-Control-Allow-Origin" origin) "Vary" "Origin"
    else hs
  alSet (alSet (alSet hs
    "Access-Control-Allow-Methods" "GET, POST, PUT, DELETE, PATCH, OPTIONS")
    "Access-Control-Allow-Headers" "Content-Type, Authorization")
    "Access-Control-Max-Age" "86400"

/-- MikroServe.setSecurityHeaders (the HTTP/1.1 and HTTP/2 branches set the
same headers); HSTS only on a TLS-backed transport. -/
def setSecurityHeaders (hs : List (String × String)) (isHttps useHttp2 : Bool) :
    List (String × String) :=
  let hs := alSet hs "X-Content-Type-Options" "nosniff"
  let hs := alSet hs "X-Frame-Options" "DENY"
  let hs := alSet hs "Content-Security-Policy"
    "default-src \x27self\x27; script-src \x27self\x27; object-src \x27none\x27"
  let hs := alSet hs "X-XSS-Protection" "1; mode=block"
  if isHttps || useHttp2 then
    alSet hs "Strict-Transport-Security" "max-age=31536000; includeSubDomains"
  else hs

/-- The fixed body-size ceiling of parseBody (1 MiB). -/
def MAX_BODY_SIZE : Nat := 1024 * 1024

/-- The data-event loop of parseBody: accumulate chunk sizes and reject the
instant the cumulative size crosses the ceiling (the rejected and later
chunks are not kept).  A chunk is modelled as a string whose length stands
for the byte length of the Buffer chunk. -/
def collectChunks : List String → Nat → List String → Except String (List String)
  | [], _, acc => .ok acc.reverse
  | c :: cs, size, acc =>
    let size2 := size + c.length
    if size2 > MAX_BODY_SIZE then .error "Request body too large"
    else collectChunks cs size2 (c :: acc)

/-- MikroServe.parseBody: stream the chunks under the ceiling; on normal
completion with at least one chunk, parse by declared content type — JSON
via the host JSON.parse (a parameter here), rejecting with the underlying
parse error text; form-encoding via the host URLSearchParams (a parameter);
anything else as raw text — and resolve the empty object for no chunks. -/
def parseBody (jsonParse : String → Except String JsVal)
    (formParse : String → List (String × String))
    (contentType : String) (chunks : List String) : Except String ParsedBody :=
  match collectChunks chunks 0 [] with
  | .error e => .error e
  | .ok bodyChunks =>
    if bodyChunks.length > 0 then
      let bodyString := String.join bodyChunks
      if strIncludes contentType "application/json" then
        match jsonParse bodyString with
        | .ok v => .ok (.json v)
        | .error e => .error ("Invalid JSON in request body: " ++ e)
      else if strIncludes contentType "application/x-www-form-urlencoded" then
        .ok (.form (formParse bodyString))
      else .ok (.text bodyString)
    else .ok .empty

/-- MikroServe.rateLimitMiddleware: set the three X-RateLimit headers from
the limiter state before the admission check, then either reject with 429 or
continue with the chain. -/
def rateLimitMiddleware (rlcfg : RateLimiterCfg) : Middleware := fun ctx next s =>
  let ip := if ctx.remoteAddress = "" then "unknown" else ctx.remoteAddress
  let hs := alSet s.headers "X-RateLimit-Limit" (toString rlcfg.limit)
  let hs := alSet hs "X-RateLimit-Remaining"
    (toString (getRemainingRequests rlcfg s.rl ctx.now ip))
  let hs := alSet hs "X-RateLimit-Reset" (toString (getResetTime rlcfg s.rl ctx.now ip))
  let adm := isAllowed rlcfg s.rl ctx.now ip
  let s2 : SrvState := ⟨hs, adm.2⟩
  if adm.1 then next s2
  else
    (.ok ⟨429,
      .obj [("error", "Too Many Requests"),
            ("message", "Rate limit exceeded, please try again later")],
      [("Content-Type", "application/json")], false, false⟩, s2)

/-- The effective requests-per-minute (the constructor defaults a falsy
configured value to 100) and the server RateLimiter built from it with a
60-second window. -/
def serverRL (cfg : Config) : RateLimiterCfg :=
  (RateLimiter.new
    (if cfg.requestsPerMinute = 0 then 100 else cfg.requestsPerMinute) 60).1

/-- The MikroServe constructor wiring: with rate limiting enabled, the bound
rateLimitMiddleware is registered with use before any user registration, so
it sits first in the global middleware list. -/
def installRateLimit (cfg : Config) (user : Router) : Router :=
  if cfg.rateLimitEnabled then
    { user with
      globalMiddlewares := rateLimitMiddleware (serverRL cfg) :: user.globalMiddlewares }
  else user

/-- The serialized outcome of one request as respond writes it: status,
the response headers (res headers merged with the HandlerResponse headers,
the latter winning), and the body; endedDirectly marks the paths that end
the response without respond (the preflight 204 and the handled marker). -/
structure HttpResult where
  statusCode : Nat
  headers : List (String × String)
  body : RespBody
  endedDirectly : Bool
deriving Repr, DecidableEq

/-- MikroServe.respond: writeHead with the response headers on top of the
headers already set on res, then the body. -/
def respond (resHeaders : List (String × String)) (resp : HandlerResponse) :
    HttpResult :=
  ⟨resp.statusCode,
   resp.headers.foldl (fun hs kv => alSet hs kv.1 kv.2) resHeaders,
   resp.body, false⟩

/-- MikroServe.requestHandler: set CORS and security headers; short-circuit
OPTIONS with an empty 204; parse the body, mapping a rejection to 400 with
the rejection message; delegate to Router.handle; map no-match to 404, a
handled result to a direct end, and an escaped fault to 500 whose message is
the fault text only in debug mode. -/
def requestHandler (cfg : Config) (rlIn : RLState) (user : Router)
    (jsonParse : String → Except String JsVal)
    (formParse : String → List (String × String))
    (req : Request) : HttpResult :=
  let r := installRateLimit cfg user
  let hs0 := setCorsHeaders [] req.origin cfg.allowedDomains
  let hs1 := setSecurityHeaders hs0 cfg.useHttps cfg.useHttp2
  if req.method = "OPTIONS" then ⟨204, hs1, .null, true⟩
  else
    match parseBody jsonParse formParse req.contentType req.chunks with
    | .error e =>
      respond hs1 ⟨400, .obj [("error", "Bad Request"), ("message", e)], [], false, false⟩
    | .ok parsed =>
      match Router.handle r req parsed ⟨hs1, rlIn⟩ with
      | (.error e, s1) =>
        respond s1.headers ⟨500,
          .obj [("error", "Internal Server Error"),
                ("message", if cfg.debug then e else "An unexpected error occurred")],
          [], false, false⟩
      | (.ok none, s1) =>
        respond s1.headers ⟨404,
          .obj [("error", "Not Found"),
                ("message", "The requested endpoint does not exist")],
          [], false, false⟩
      | (.ok (some resp), s1) =>
        if resp.handledFlag then ⟨0, s1.headers, .null, true⟩
        else respond s1.headers resp

/-! ## Derived definitions used by the claim statements -/

/-- A router built by a sequence of register calls on a fresh Router (the
way every route table of the engine arises). -/
def registerAll (regs : List Route) : Router :=
  regs.foldl (fun r rt => r.register rt.method rt.path rt.handler rt.middlewares)
    Router.empty

/-- Whether a registered route answers the given method and path: its method
equals the request method and its compiled pattern matches the path. -/
def routeMatches (method path : String) (rt : Route) : Bool :=
  rt.method == method && (patMatch (createPathPattern rt.path) path).isSome

/-- Well-formedness of a rewritten parts list: every capture group is
followed by a literal slash or ends the list (createPathPattern only emits
groups for runs delimited by a slash or the end of the template). -/
def SegOk : List RegexPart → Prop
  | [] => True
  | .seg :: rest => (rest = [] ∨ ∃ ps, rest = .lit '/' :: ps) ∧ SegOk rest
  | .lit _ :: rest => SegOk rest

/-- Whether a parts list is empty or starts with a literal slash. -/
def SlashLead (ps : List RegexPart) : Prop :=
  ps = [] ∨ ∃ ps2, ps = .lit '/' :: ps2

/-- Number of capture groups in a parts list. -/
def segCount : List RegexPart → Nat
  | [] => 0
  | .seg :: ps => segCount ps + 1
  | .lit _ :: ps => segCount ps

/-- Demo route handlers and routers used by concrete witnesses. -/
def demoHandlerA : RouteHandler := fun _ => Eff.pure ⟨200, .str "A", [], false, false⟩

/-- Second demo handler. -/
def demoHandlerB : RouteHandler := fun _ => Eff.pure ⟨200, .str "B", [], false, false⟩

/-- Two routes for the same method: the more general template registered
first, the more specific second; both match the path of the second. -/
def demoRoutes : List Route :=
  [⟨"GET", "/:a", demoHandlerA, []⟩, ⟨"GET", "/users", demoHandlerB, []⟩]

/-- A response used by the short-circuit witness. -/
def demoShortResp : HandlerResponse := ⟨418, .str "short", [], false, false⟩

/-- A middleware that returns a response without invoking its continuation. -/
def demoShortMw : Middleware := fun _ _ => Eff.pure demoShortResp

/-- Router with the short-circuiting middleware installed globally and one
registered route. -/
def demoRouter5 : Router :=
  (Router.empty.use demoShortMw).register "GET" "/x" demoHandlerA []

/-- A plain GET request to /x with no body. -/
def demoReq5 : Request := ⟨"GET", "/x", [], [], "", "", [], "", 0⟩

/-- A JSON parser stub that accepts everything (for witnesses where parsing
must succeed). -/
def jsonParse0 : String → Except String JsVal := fun _ => .ok .null

/-- A JSON parser stub that always fails with a fixed parse error text. -/
def jsonParseErr : String → Except String JsVal :=
  fun _ => .error "Unexpected token b in JSON at position 1"

/-- A form parser stub. -/
def formParse0 : String → List (String × String) := fun _ => []

/-- A handler that always throws. -/
def demoThrowHandler : RouteHandler := fun _ => Eff.throw "boom"

/-- Router with a single throwing route. -/
def demoRouter8 : Router := Router.empty.register "GET" "/x" demoThrowHandler []

/-- Config with every feature off and debug off. -/
def demoCfgOff : Config := ⟨false, none, false, false, false, 0⟩

/-- Config identical to demoCfgOff but with debug on. -/
def demoCfgDebug : Config := ⟨true, none, false, false, false, 0⟩

/-- Config with rate limiting enabled (quota falls back to the default). -/
def demoCfgRL : Config := ⟨false, none, false, false, true, 0⟩

/-- Router with one plain GET route answering /a. -/
def demoRouter9 : Router :=
  Router.empty.register "GET" "/a"
    (fun _ => Eff.pure ⟨200, .str "ok", [], false, false⟩) []

/-- A GET request for a path no route matches. -/
def demoReq404 : Request := ⟨"GET", "/nope", [], [], "", "", [], "9.9.9.9", 5000⟩

/-- A GET request matching demoRouter9. -/
def demoReqA : Request := ⟨"GET", "/a", [], [], "", "", [], "9.9.9.9", 5000⟩

/-- An OPTIONS preflight request. -/
def demoReqOpt : Request := ⟨"OPTIONS", "/a", [], [], "", "", [], "9.9.9.9", 5000⟩

/-- A POST request carrying a malformed JSON body. -/
def demoReqBadJson : Request :=
  ⟨"POST", "/a", [], [], "application/json", "", ["\x7bbad"], "9.9.9.9", 5000⟩

/-- The client key the rate limit middleware derives from the remote
address (the falsy default to the sentinel). -/
def mwKey (remoteAddress : String) : String :=
  if remoteAddress = "" then "unknown" else remoteAddress

/-- The three rate-limit headers exactly as the middleware sets them on the
given headers map. -/
def rlHeaders (rlcfg : RateLimiterCfg) (rl : RLState) (now : Nat) (ip : String)
    (hs : List (String × String)) : List (String × String) :=
  alSet (alSet (alSet hs "X-RateLimit-Limit" (toString rlcfg.limit))
      "X-RateLimit-Remaining" (toString (getRemainingRequests rlcfg rl now ip)))
    "X-RateLimit-Reset" (toString (getResetTime rlcfg rl now ip))

/-- The 429 rejection response of the rate limit middleware. -/
def tooManyResp : HandlerResponse :=
  ⟨429, .obj [("error", "Too Many Requests"),
      ("message", "Rate limit exceeded, please try again later")],
    [("Content-Type", "application/json")], false, false⟩

theorem alGet_alSet_self {α : Type} (l : List (String × α)) (k : String) (v : α) :
    alGet (alSet l k v) k = some v := by
  induction l with
  | nil => simp [alSet, alGet]
  | cons hd tl ih =>
    obtain ⟨k0, v0⟩ := hd
    by_cases h : k0 = k
    · simp [alSet, alGet, h]
    · simp [alSet, alGet, h, ih]

theorem alGet_alSet_ne {α : Type} (l : List (String × α)) (k k' : String) (v : α)
    (h : k ≠ k') : alGet (alSet l k v) k' = alGet l k' := by
  induction l with
  | nil => simp [alSet, alGet, h]
  | cons hd tl ih =>
    obtain ⟨k0, v0⟩ := hd
    by_cases h0 : k0 = k
    · subst h0
      simp [alSet, alGet, h]
    · simp [alSet, alGet, h0, ih]

theorem isAllowed_live (cfg : RateLimiterCfg) (st : RLState) (now : Nat)
    (ip : String) (c r : Nat) (hget : alGet st (rlKey ip) = some ⟨c, r⟩)
    (hnow : now ≤ r) :
    isAllowed cfg st now ip =
      (decide (c + 1 ≤ cfg.limit), alSet st (rlKey ip) ⟨c + 1, r⟩) := by
  have hlt : ¬ r < now := by omega
  simp [isAllowed, hget, hlt]

theorem isAllowed_fresh (cfg : RateLimiterCfg) (st : RLState) (now : Nat)
    (ip : String)
    (hget : alGet st (rlKey ip) = none ∨
      ∃ c r, alGet st (rlKey ip) = some ⟨c, r⟩ ∧ r < now) :
    isAllowed cfg st now ip =
      (decide (1 ≤ cfg.limit), alSet st (rlKey ip) ⟨1, now + cfg.windowMs⟩) := by
  rcases hget with h | ⟨c, r, h, hr⟩
  · simp [isAllowed, h]
  · simp [isAllowed, h, hr]

theorem runCalls_window (cfg : RateLimiterCfg) (ip : String) (r : Nat)
    (ts : List Nat) (hts : ∀ t ∈ ts, t ≤ r) :
    ∀ (c : Nat) (st : RLState), alGet st (rlKey ip) = some ⟨c, r⟩ →
    (runCalls cfg ip st ts).1 =
      (List.range ts.length).map (fun i => decide (c + 1 + i ≤ cfg.limit)) ∧
    alGet (runCalls cfg ip st ts).2 (rlKey ip) = some ⟨c + ts.length, r⟩ := by
  induction ts with
  | nil =>
    intro c st hst
    simpa [runCalls] using hst
  | cons t ts ih =>
    intro c st hst
    have ht : t ≤ r := hts t (by simp)
    have hstep := isAllowed_live cfg st t ip c r hst ht
    have hget2 : alGet (alSet st (rlKey ip) ⟨c + 1, r⟩) (rlKey ip) = some ⟨c + 1, r⟩ :=
      alGet_alSet_self _ _ _
    have hts2 : ∀ u ∈ ts, u ≤ r := fun u hu => hts u (by simp [hu])
    have ihh := ih hts2 (c + 1) (alSet st (rlKey ip) ⟨c + 1, r⟩) hget2
    constructor
    · show (runCalls cfg ip st (t :: ts)).1 = _
      simp only [runCalls, hstep, List.length_cons]
      rw [ihh.1, List.range_succ_eq_map, List.map_cons, List.map_map]
      rw [List.cons.injEq]
      constructor
      · rw [decide_eq_decide]
      · apply List.map_congr_left
        intro i _
        simp only [Function.comp]
        rw [decide_eq_decide]
        omega
    · show alGet (runCalls cfg ip st (t :: ts)).2 (rlKey ip) = _
      simp only [runCalls, hstep, List.length_cons]
      rw [ihh.2]
      congr 2
      omega

/-! ## Router registration and matching lemmas -/

theorem registerAll_routes (regs : List Route) :
    ∀ r0 : Router,
      (regs.foldl (fun r rt =>
        r.register rt.method rt.path rt.handler rt.middlewares) r0).routes =
        r0.routes ++ regs := by
  induction regs with
  | nil => intro r0; simp
  | cons rt regs ih =>
    intro r0
    rw [List.foldl_cons, ih]
    simp [Router.register]

/-- The pattern cache invariant: every registered route has its compiled
pattern cached under its template. -/
def PatGood (r : Router) : Prop :=
  ∀ rt ∈ r.routes, alGet r.pathPatterns rt.path = some (createPathPattern rt.path)

theorem register_patGood (r : Router) (method path : String) (h : RouteHandler)
    (mws : List Middleware) (hr : PatGood r) :
    PatGood (r.register method path h mws) := by
  intro rt hmem
  simp only [Router.register, List.mem_append, List.mem_singleton] at hmem
  rcases hmem with hold | hnew
  · by_cases hp : rt.path = path
    · rw [hp]
      simp [Router.register, alGet_alSet_self]
    · simp only [Router.register]
      rw [alGet_alSet_ne _ _ _ _ (fun hcontra => hp hcontra.symm)]
      exact hr rt hold
  · subst hnew
    simp [Router.register, alGet_alSet_self]

theorem registerAll_patGood (regs : List Route) :
    ∀ r0 : Router, PatGood r0 →
      PatGood (regs.foldl (fun r rt =>
        r.register rt.method rt.path rt.handler rt.middlewares) r0) := by
  induction regs with
  | nil => intro r0 h; simpa using h
  | cons rt regs ih =>
    intro r0 h
    rw [List.foldl_cons]
    exact ih _ (register_patGood _ _ _ _ _ h)

theorem matchLoop_find (pats : List (String × PathPattern)) (method path : String)
    (routes : List Route)
    (hpats : ∀ rt ∈ routes, alGet pats rt.path = some (createPathPattern rt.path)) :
    matchLoop pats method path routes =
      (routes.find? (routeMatches method path)).bind (fun rt =>
        (patMatch (createPathPattern rt.path) path).map (fun ps => (rt, ps))) := by
  induction routes with
  | nil => simp [matchLoop]
  | cons rt routes ih =>
    have hpat : alGet pats rt.path = some (createPathPattern rt.path) :=
      hpats rt (by simp)
    have hrest : ∀ rt2 ∈ routes, alGet pats rt2.path = some (createPathPattern rt2.path) :=
      fun rt2 h2 => hpats rt2 (by simp [h2])
    by_cases hm : rt.method = method
    · cases hpm : patMatch (createPathPattern rt.path) path with
      | none =>
        have hrm : routeMatches method path rt = false := by
          simp [routeMatches, hpm]
        simp only [matchLoop, hm, ne_eq, not_true_eq_false, if_false, hpat, hpm]
        rw [List.find?_cons_of_neg _ (by simp [hrm]), ih hrest]
      | some ps =>
        have hrm : routeMatches method path rt = true := by
          simp [routeMatches, hpm, hm]
        simp only [matchLoop, hm, ne_eq, not_true_eq_false, if_false, hpat, hpm]
        rw [List.find?_cons_of_pos _ hrm]
        simp [hpm]
    · have hrm : routeMatches method path rt = false := by
        simp [routeMatches, hm]
      simp only [matchLoop, hm, ne_eq, not_false_eq_true, if_true]
      rw [List.find?_cons_of_neg _ (by simp [hrm]), ih hrest]

end Mikro

namespace Mikro

/-- C2: for a RateLimiter built with (limit = L, windowSeconds = W) and a fixed
key, calls whose times fall within one window (between the first call time and
W seconds after it) are admitted exactly while the incremented count stays
within L: the i-th call returns (i ≤ L), so the first L calls return true and
every later one false (the count keeps incrementing on rejected calls); once
more than W seconds have passed since the window start, the next call is
admitted again and getRemainingRequests immediately afterwards returns L - 1. -/
theorem rateLimiter_fixed_window (L W : Nat) (hL : 1 ≤ L) (ip : String)
    (t0 : Nat) (ts : List Nat)
    (hts : ∀ t ∈ ts, t0 ≤ t ∧ t ≤ t0 + W * 1000)
    (tlate : Nat) (hlate : t0 + W * 1000 < tlate) :
    (runCalls (RateLimiter.new L W).1 ip (RateLimiter.new L W).2 (t0 :: ts)).1 =
      (List.range (ts.length + 1)).map (fun i => decide (i + 1 ≤ L)) ∧
    alGet (runCalls (RateLimiter.new L W).1 ip (RateLimiter.new L W).2
        (t0 :: ts)).2 (rlKey ip) = some ⟨1 + ts.length, t0 + W * 1000⟩ ∧
    (isAllowed (RateLimiter.new L W).1
        (runCalls (RateLimiter.new L W).1 ip (RateLimiter.new L W).2 (t0 :: ts)).2
        tlate ip).1 = true ∧
    getRemainingRequests (RateLimiter.new L W).1
        (isAllowed (RateLimiter.new L W).1
          (runCalls (RateLimiter.new L W).1 ip (RateLimiter.new L W).2 (t0 :: ts)).2
          tlate ip).2 tlate ip = (L : Int) - 1 := by
  have hnew1 : (RateLimiter.new L W).1 = (⟨L, W * 1000⟩ : RateLimiterCfg) := rfl
  have hnew2 : (RateLimiter.new L W).2 = ([] : RLState) := rfl
  rw [hnew1, hnew2]
  have hfresh : isAllowed ⟨L, W * 1000⟩ [] t0 ip =
      (decide (1 ≤ L), alSet [] (rlKey ip) ⟨1, t0 + W * 1000⟩) :=
    isAllowed_fresh ⟨L, W * 1000⟩ [] t0 ip (Or.inl rfl)
  have hget1 : alGet (alSet ([] : RLState) (rlKey ip) ⟨1, t0 + W * 1000⟩)
      (rlKey ip) = some ⟨1, t0 + W * 1000⟩ := alGet_alSet_self _ _ _
  have hts2 : ∀ t ∈ ts, t ≤ t0 + W * 1000 := fun t htmem => (hts t htmem).2
  have hw := runCalls_window ⟨L, W * 1000⟩ ip (t0 + W * 1000) ts hts2 1
      (alSet [] (rlKey ip) ⟨1, t0 + W * 1000⟩) hget1
  have hrunfst : (runCalls ⟨L, W * 1000⟩ ip [] (t0 :: ts)).1 =
      decide (1 ≤ L) ::
        (List.range ts.length).map (fun i => decide (1 + 1 + i ≤ L)) := by
    simp only [runCalls, hfresh]
    rw [hw.1]
  have hrunsnd : alGet (runCalls ⟨L, W * 1000⟩ ip [] (t0 :: ts)).2 (rlKey ip) =
      some ⟨1 + ts.length, t0 + W * 1000⟩ := by
    simp only [runCalls, hfresh]
    exact hw.2
  refine ⟨?_, hrunsnd, ?_, ?_⟩
  · rw [hrunfst, List.range_succ_eq_map, List.map_cons, List.map_map]
    rw [List.cons.injEq]
    constructor
    · rw [decide_eq_decide]
    · apply List.map_congr_left
      intro i _
      simp only [Function.comp]
      rw [decide_eq_decide]
      omega
  · have hstep := isAllowed_fresh ⟨L, W * 1000⟩
      (runCalls ⟨L, W * 1000⟩ ip [] (t0 :: ts)).2 tlate ip
      (Or.inr ⟨1 + ts.length, t0 + W * 1000, hrunsnd, hlate⟩)
    rw [hstep]
    simp only [decide_eq_true_eq]
    exact hL
  · have hstep := isAllowed_fresh ⟨L, W * 1000⟩
      (runCalls ⟨L, W * 1000⟩ ip [] (t0 :: ts)).2 tlate ip
      (Or.inr ⟨1 + ts.length, t0 + W * 1000, hrunsnd, hlate⟩)
    rw [hstep]
    have hget2 : alGet (alSet (runCalls ⟨L, W * 1000⟩ ip [] (t0 :: ts)).2 (rlKey ip)
        ⟨1, tlate + W * 1000⟩) (rlKey ip) = some ⟨1, tlate + W * 1000⟩ :=
      alGet_alSet_self _ _ _
    simp only [getRemainingRequests, hget2]
    have hnotlt : ¬ tlate + W * 1000 < tlate := by omega
    simp only [hnotlt, if_false]
    omega

/-- Witness for rateLimiter_fixed_window at limit 2, window 60 s: calls at
times 1000, 1500, 2000 ms give admissions true, true, false, and a call at
100000 ms (past the window) is admitted with remaining 1 afterwards. -/
theorem rateLimiter_fixed_window_witness :
    (runCalls (RateLimiter.new 2 60).1 "1.2.3.4" (RateLimiter.new 2 60).2
        (1000 :: [1500, 2000])).1 =
      (List.range ([1500, 2000].length + 1)).map (fun i => decide (i + 1 ≤ 2)) ∧
    alGet (runCalls (RateLimiter.new 2 60).1 "1.2.3.4" (RateLimiter.new 2 60).2
        (1000 :: [1500, 2000])).2 (rlKey "1.2.3.4") =
      some ⟨1 + [1500, 2000].length, 1000 + 60 * 1000⟩ ∧
    (isAllowed (RateLimiter.new 2 60).1
        (runCalls (RateLimiter.new 2 60).1 "1.2.3.4" (RateLimiter.new 2 60).2
          (1000 :: [1500, 2000])).2 100000 "1.2.3.4").1 = true ∧
    getRemainingRequests (RateLimiter.new 2 60).1
        (isAllowed (RateLimiter.new 2 60).1
          (runCalls (RateLimiter.new 2 60).1 "1.2.3.4" (RateLimiter.new 2 60).2
            (1000 :: [1500, 2000])).2 100000 "1.2.3.4").2 100000 "1.2.3.4" =
      (2 : Int) - 1 :=
  rateLimiter_fixed_window 2 60 (by decide) "1.2.3.4" 1000 [1500, 2000]
    (by decide) 100000 (by decide)

/-- C1: when two or more registered routes share the request method and have
a compiled pattern matching the request path, Router.match returns the
first-registered such route (linear scan in registration order), regardless
of any later, more specific template: the matched route is exactly the first
element of the registration list satisfying the method-and-pattern test. -/
theorem router_first_registered_wins (regs : List Route) (method path : String)
    (hmulti : 2 ≤ (regs.filter (routeMatches method path)).length) :
    ((registerAll regs).matchRoute method path).map Prod.fst =
      regs.find? (routeMatches method path) := by
  have hroutes : (registerAll regs).routes = regs := by
    have := registerAll_routes regs Router.empty
    simpa [Router.empty, registerAll] using this
  have hgood : PatGood (registerAll regs) := by
    have := registerAll_patGood regs Router.empty (by intro rt h; simp [Router.empty] at h)
    simpa [registerAll] using this
  have hpats : ∀ rt ∈ regs, alGet (registerAll regs).pathPatterns rt.path =
      some (createPathPattern rt.path) := by
    intro rt hmem
    exact hgood rt (by rw [hroutes]; exact hmem)
  rw [Router.matchRoute, hroutes, matchLoop_find _ _ _ _ hpats]
  cases hfind : regs.find? (routeMatches method path) with
  | none => simp
  | some rt =>
    have hrm : routeMatches method path rt = true := List.find?_some hfind
    rw [routeMatches, Bool.and_eq_true] at hrm
    rcases Option.isSome_iff_exists.mp hrm.2 with ⟨ps, hps⟩
    simp [hps]

/-- Witness for router_first_registered_wins: a general template registered
before a specific one; the request for the specific path resolves to the
first registration. -/
theorem router_first_registered_wins_witness :
    ((registerAll demoRoutes).matchRoute "GET" "/users").map Prod.fst =
      demoRoutes.find? (routeMatches "GET" "/users") :=
  router_first_registered_wins demoRoutes "GET" "/users" (by decide)

/-- C3 counterexample: the template /users has no trailing wildcard, yet its
compiled pattern, while matching /users, does not match /users/ — the
optional-trailing-slash rewrite only fires for templates that themselves end
in a slash. -/
theorem trailing_slash_counterexample :
    ¬ (createPathPattern "/users").tail = PatTail.wildcard ∧
    patMatch (createPathPattern "/users") "/users" = some [] ∧
    patMatch (createPathPattern "/users") "/users/" = none := by decide

/-- C3 amended: matching is anchored to the whole path, and a template with
no trailing wildcard tolerates an optional trailing slash in the request
path only when the template itself ends in a slash: /users matches exactly
/users (not /users/, /users/x or /xusers), while /users/ matches both
/users and /users/. -/
theorem trailing_slash_only_for_slash_templates :
    (createPathPattern "/users").tail = PatTail.exact ∧
    patMatch (createPathPattern "/users") "/users" = some [] ∧
    patMatch (createPathPattern "/users") "/users/" = none ∧
    patMatch (createPathPattern "/users") "/users/x" = none ∧
    patMatch (createPathPattern "/users") "/xusers" = none ∧
    (createPathPattern "/users/").tail = PatTail.optSlash ∧
    patMatch (createPathPattern "/users/") "/users" = some [] ∧
    patMatch (createPathPattern "/users/") "/users/" = some [] := by decide

/-- C7: with the allow-list containing exactly one origin, a request from
that origin gets the allow-origin header echoing it plus Vary set to Origin,
while a request from any other (nonempty) origin gets no allow-origin
header at all. -/
theorem cors_allowlist_echo :
    alGet (setCorsHeaders [] "https://a.com" (some ["https://a.com"]))
        "Access-Control-Allow-Origin" = some "https://a.com" ∧
    alGet (setCorsHeaders [] "https://a.com" (some ["https://a.com"]))
        "Vary" = some "Origin" ∧
    alGet (setCorsHeaders [] "https://b.com" (some ["https://a.com"]))
        "Access-Control-Allow-Origin" = none ∧
    (∀ o : String, o ≠ "" → o ≠ "https://a.com" →
      alGet (setCorsHeaders [] o (some ["https://a.com"]))
        "Access-Control-Allow-Origin" = none) := by
  refine ⟨by decide, by decide, by decide, ?_⟩
  intro o ho hne
  simp only [setCorsHeaders, Option.getD]
  rw [if_neg (by simp [ho])]
  rw [if_neg (by decide)]
  rw [if_neg (by simp [List.contains]; exact hne)]
  rw [alGet_alSet_ne _ _ _ _ (by decide), alGet_alSet_ne _ _ _ _ (by decide),
    alGet_alSet_ne _ _ _ _ (by decide)]
  rfl

/-- Witness for cors_allowlist_echo at a third concrete origin. -/
theorem cors_allowlist_echo_witness :
    alGet (setCorsHeaders [] "https://c.com" (some ["https://a.com"]))
      "Access-Control-Allow-Origin" = none :=
  cors_allowlist_echo.2.2.2 "https://c.com" (by decide) (by decide)

/-! ## Middleware chain lemmas -/

theorem chain_shortcircuit (ctx : Context) (R : HandlerResponse)
    (pre post : List Middleware) (h : RouteHandler)
    (hpre : ∀ mw ∈ pre, ∀ c k, mw c k = k) :
    executeMiddlewareChain ctx (pre ++ (fun _ _ => Eff.pure R) :: post) h =
      Eff.pure R := by
  induction pre with
  | nil => rfl
  | cons mw pre ih =>
    have hmw := hpre mw (by simp)
    have hrest : ∀ mw2 ∈ pre, ∀ c k, mw2 c k = k :=
      fun mw2 h2 => hpre mw2 (by simp [h2])
    show mw ctx (executeMiddlewareChain ctx (pre ++ _ :: post) h) = _
    rw [hmw ctx _, ih hrest]

/-- C5: if the concatenated middleware chain of a matched route contains a
middleware that returns a response R without invoking its continuation, and
every middleware before it is transparent (delegates to its continuation),
then Router.handle returns exactly R: the result does not depend on the
middlewares after it nor on the terminal handler (both are universally
quantified and absent from the conclusion), so neither is ever invoked, and
the server state is left untouched. -/
theorem middleware_short_circuit (r : Router) (req : Request) (body : ParsedBody)
    (route : Route) (params : List (String × String))
    (pre post : List Middleware) (R : HandlerResponse) (s : SrvState)
    (hmatch : r.matchRoute (if req.method = "" then "GET" else req.method)
      req.path = some (route, params))
    (hchain : r.globalMiddlewares ++ route.middlewares =
      pre ++ (fun _ _ => Eff.pure R) :: post)
    (hpre : ∀ mw ∈ pre, ∀ c k, mw c k = k) :
    Router.handle r req body s = (Except.ok (some R), s) := by
  simp only [Router.handle, hmatch]
  rw [hchain, chain_shortcircuit _ _ _ _ _ hpre]
  rfl

/-- Witness for middleware_short_circuit: a global middleware short-circuits
with a teapot response; the registered handler is never consulted. -/
theorem middleware_short_circuit_witness :
    Router.handle demoRouter5 demoReq5 ParsedBody.empty ⟨[], []⟩ =
      (Except.ok (some demoShortResp), ⟨[], []⟩) :=
  middleware_short_circuit demoRouter5 demoReq5 ParsedBody.empty
    ⟨"GET", "/x", demoHandlerA, []⟩ [] [] [] demoShortResp ⟨[], []⟩
    rfl rfl (by simp)

/-! ## parseBody lemmas -/

theorem collectChunks_err (cs : List String) :
    ∀ size acc, size ≤ MAX_BODY_SIZE →
      size + (cs.map String.length).sum > MAX_BODY_SIZE →
      collectChunks cs size acc = .error "Request body too large" := by
  induction cs with
  | nil => intro size acc h1 h2; simp at h2; omega
  | cons c cs ih =>
    intro size acc h1 h2
    simp only [collectChunks]
    by_cases hover : size + c.length > MAX_BODY_SIZE
    · rw [if_pos hover]
    · rw [if_neg hover]
      apply ih
      · omega
      · simp [List.map_cons, List.sum_cons] at h2
        omega

theorem collectChunks_ok (cs : List String) :
    ∀ size acc, size + (cs.map String.length).sum ≤ MAX_BODY_SIZE →
      collectChunks cs size acc = .ok (acc.reverse ++ cs) := by
  induction cs with
  | nil => intro size acc h; simp [collectChunks]
  | cons c cs ih =>
    intro size acc h
    simp only [List.map_cons, List.sum_cons] at h
    simp only [collectChunks]
    rw [if_neg (by omega)]
    rw [ih (size + c.length) (c :: acc) (by omega)]
    simp

theorem parseBody_size_err (jp : String → Except String JsVal)
    (fp : String → List (String × String)) (ct : String) (chunks : List String)
    (h : (chunks.map String.length).sum > MAX_BODY_SIZE) :
    parseBody jp fp ct chunks = .error "Request body too large" := by
  rw [parseBody, collectChunks_err chunks 0 [] (by simp [MAX_BODY_SIZE]) (by omega)]

theorem parseBody_json_err (jp : String → Except String JsVal)
    (fp : String → List (String × String)) (ct : String) (chunks : List String)
    (e : String)
    (hsize : (chunks.map String.length).sum ≤ MAX_BODY_SIZE)
    (hne : chunks ≠ [])
    (hct : strIncludes ct "application/json" = true)
    (hjson : jp (String.join chunks) = .error e) :
    parseBody jp fp ct chunks = .error ("Invalid JSON in request body: " ++ e) := by
  rw [parseBody, collectChunks_ok chunks 0 [] (by omega)]
  simp only [List.reverse_nil, List.nil_append]
  rw [if_pos (by
    cases chunks with
    | nil => exact absurd rfl hne
    | cons a l => simp)]
  rw [if_pos hct, hjson]

/-- C6: a request whose body chunks cumulatively exceed the 1 MiB ceiling,
or whose application/json body fails the host JSON parse, is answered 400
with the Bad Request error object whose message is the fixed too-large text
or includes the underlying parse error text respectively; the equations hold
for every router, so the terminal route handler is never invoked. -/
theorem bad_request_rejections (cfg : Config) (rlIn : RLState) (user : Router)
    (jp : String → Except String JsVal) (fp : String → List (String × String))
    (req : Request) (hm : req.method ≠ "OPTIONS") :
    ((req.chunks.map String.length).sum > MAX_BODY_SIZE →
      requestHandler cfg rlIn user jp fp req =
        respond (setSecurityHeaders (setCorsHeaders [] req.origin cfg.allowedDomains)
            cfg.useHttps cfg.useHttp2)
          ⟨400, .obj [("error", "Bad Request"), ("message", "Request body too large")],
            [], false, false⟩) ∧
    (∀ e : String, (req.chunks.map String.length).sum ≤ MAX_BODY_SIZE →
      req.chunks ≠ [] →
      strIncludes req.contentType "application/json" = true →
      jp (String.join req.chunks) = .error e →
      requestHandler cfg rlIn user jp fp req =
        respond (setSecurityHeaders (setCorsHeaders [] req.origin cfg.allowedDomains)
            cfg.useHttps cfg.useHttp2)
          ⟨400, .obj [("error", "Bad Request"),
              ("message", "Invalid JSON in request body: " ++ e)],
            [], false, false⟩) := by
  constructor
  · intro hsize
    simp only [requestHandler]
    rw [if_neg hm, parseBody_size_err jp fp _ _ hsize]
  · intro e hsize hne hct hjson
    simp only [requestHandler]
    rw [if_neg hm, parseBody_json_err jp fp _ _ e hsize hne hct hjson]

/-- Witness for bad_request_rejections: an oversized single chunk yields the
fixed too-large 400, and a malformed JSON chunk yields the 400 carrying the
parser's error text. -/
theorem bad_request_rejections_witness :
    (requestHandler demoCfgOff [] demoRouter9 jsonParse0 formParse0
      { demoReqBadJson with chunks := [String.mk (List.replicate 1048577 'a')] } =
      respond (setSecurityHeaders (setCorsHeaders [] "" none) false false)
        ⟨400, .obj [("error", "Bad Request"), ("message", "Request body too large")],
          [], false, false⟩) ∧
    (requestHandler demoCfgOff [] demoRouter9 jsonParseErr formParse0 demoReqBadJson =
      respond (setSecurityHeaders (setCorsHeaders [] "" none) false false)
        ⟨400, .obj [("error", "Bad Request"),
            ("message", "Invalid JSON in request body: " ++
              "Unexpected token b in JSON at position 1")],
          [], false, false⟩) := by
  constructor
  · refine (bad_request_rejections demoCfgOff [] demoRouter9 jsonParse0 formParse0
      _ (by decide)).1 ?_
    have h1 : (String.mk (List.replicate 1048577 'a')).length = 1048577 :=
      List.length_replicate 1048577 'a'
    have h2 : ∀ s : String, (([s] : List String).map String.length).sum = s.length := by
      intro s
      rw [List.map_cons, List.map_nil, List.sum_cons, List.sum_nil, Nat.add_zero]
    rw [h2, h1]
    decide
  · exact (bad_request_rejections demoCfgOff [] demoRouter9 jsonParseErr formParse0
      demoReqBadJson (by decide)).2
      "Unexpected token b in JSON at position 1"
      (by decide) (by decide) (by decide) rfl

/-! ## Header bookkeeping lemmas -/

theorem alGet_setCors_other (hs : List (String × String)) (o : String)
    (ad : Option (List String)) (name : String)
    (h1 : name ≠ "Access-Control-Allow-Origin") (h2 : name ≠ "Vary")
    (h3 : name ≠ "Access-Control-Allow-Methods")
    (h4 : name ≠ "Access-Control-Allow-Headers")
    (h5 : name ≠ "Access-Control-Max-Age") :
    alGet (setCorsHeaders hs o ad) name = alGet hs name := by
  simp only [setCorsHeaders]
  rw [alGet_alSet_ne _ _ _ _ (Ne.symm h5), alGet_alSet_ne _ _ _ _ (Ne.symm h4),
    alGet_alSet_ne _ _ _ _ (Ne.symm h3)]
  by_cases c1 : o = "" ∨ (ad.getD ["*"]).length = 0
  · rw [if_pos c1, alGet_alSet_ne _ _ _ _ (Ne.symm h1)]
  · rw [if_neg c1]
    by_cases c2 : (ad.getD ["*"]).contains "*" = true
    · rw [if_pos c2, alGet_alSet_ne _ _ _ _ (Ne.symm h1)]
    · rw [if_neg c2]
      by_cases c3 : (ad.getD ["*"]).contains o = true
      · rw [if_pos c3, alGet_alSet_ne _ _ _ _ (Ne.symm h2),
          alGet_alSet_ne _ _ _ _ (Ne.symm h1)]
      · rw [if_neg c3]

theorem alGet_setSecurity_other (hs : List (String × String)) (b1 b2 : Bool)
    (name : String)
    (h1 : name ≠ "X-Content-Type-Options") (h2 : name ≠ "X-Frame-Options")
    (h3 : name ≠ "Content-Security-Policy") (h4 : name ≠ "X-XSS-Protection")
    (h5 : name ≠ "Strict-Transport-Security") :
    alGet (setSecurityHeaders hs b1 b2) name = alGet hs name := by
  simp only [setSecurityHeaders]
  by_cases c : (b1 || b2) = true
  · rw [if_pos c, alGet_alSet_ne _ _ _ _ (Ne.symm h5),
      alGet_alSet_ne _ _ _ _ (Ne.symm h4), alGet_alSet_ne _ _ _ _ (Ne.symm h3),
      alGet_alSet_ne _ _ _ _ (Ne.symm h2), alGet_alSet_ne _ _ _ _ (Ne.symm h1)]
  · rw [if_neg c, alGet_alSet_ne _ _ _ _ (Ne.symm h4),
      alGet_alSet_ne _ _ _ _ (Ne.symm h3), alGet_alSet_ne _ _ _ _ (Ne.symm h2),
      alGet_alSet_ne _ _ _ _ (Ne.symm h1)]

theorem alGet_base_none (o : String) (ad : Option (List String)) (b1 b2 : Bool)
    (name : String)
    (h1 : name ≠ "Access-Control-Allow-Origin") (h2 : name ≠ "Vary")
    (h3 : name ≠ "Access-Control-Allow-Methods")
    (h4 : name ≠ "Access-Control-Allow-Headers")
    (h5 : name ≠ "Access-Control-Max-Age")
    (h6 : name ≠ "X-Content-Type-Options") (h7 : name ≠ "X-Frame-Options")
    (h8 : name ≠ "Content-Security-Policy") (h9 : name ≠ "X-XSS-Protection")
    (h10 : name ≠ "Strict-Transport-Security") :
    alGet (setSecurityHeaders (setCorsHeaders [] o ad) b1 b2) name = none := by
  rw [alGet_setSecurity_other _ _ _ _ h6 h7 h8 h9 h10,
    alGet_setCors_other _ _ _ _ h1 h2 h3 h4 h5]
  rfl

/-- C8: an uncaught fault escaping Router.handle is answered 500 with the
Internal Server Error object whose message is the fault text only in debug
mode and the fixed generic message otherwise; in particular with debug off
the 500 body is the same for any two faults, so no fault text reaches the
client. -/
theorem internal_error_hidden (cfg : Config) (rlIn : RLState)
    (jp : String → Except String JsVal) (fp : String → List (String × String)) :
    (∀ (user : Router) (req : Request) (pb : ParsedBody) (e : String) (s1 : SrvState),
      req.method ≠ "OPTIONS" →
      parseBody jp fp req.contentType req.chunks = Except.ok pb →
      Router.handle (installRateLimit cfg user) req pb
        ⟨setSecurityHeaders (setCorsHeaders [] req.origin cfg.allowedDomains)
          cfg.useHttps cfg.useHttp2, rlIn⟩ = (Except.error e, s1) →
      (requestHandler cfg rlIn user jp fp req).statusCode = 500 ∧
      (requestHandler cfg rlIn user jp fp req).body =
        RespBody.obj [("error", "Internal Server Error"),
          ("message", if cfg.debug then e else "An unexpected error occurred")]) ∧
    (cfg.debug = false →
      ∀ (user : Router) (req : Request) (pb : ParsedBody) (e : String) (s1 : SrvState)
        (user2 : Router) (req2 : Request) (pb2 : ParsedBody) (e2 : String) (s2 : SrvState),
      req.method ≠ "OPTIONS" →
      parseBody jp fp req.contentType req.chunks = Except.ok pb →
      Router.handle (installRateLimit cfg user) req pb
        ⟨setSecurityHeaders (setCorsHeaders [] req.origin cfg.allowedDomains)
          cfg.useHttps cfg.useHttp2, rlIn⟩ = (Except.error e, s1) →
      req2.method ≠ "OPTIONS" →
      parseBody jp fp req2.contentType req2.chunks = Except.ok pb2 →
      Router.handle (installRateLimit cfg user2) req2 pb2
        ⟨setSecurityHeaders (setCorsHeaders [] req2.origin cfg.allowedDomains)
          cfg.useHttps cfg.useHttp2, rlIn⟩ = (Except.error e2, s2) →
      (requestHandler cfg rlIn user jp fp req).body =
        (requestHandler cfg rlIn user2 jp fp req2).body) := by
  have hmain : ∀ (user : Router) (req : Request) (pb : ParsedBody) (e : String)
      (s1 : SrvState),
      req.method ≠ "OPTIONS" →
      parseBody jp fp req.contentType req.chunks = Except.ok pb →
      Router.handle (installRateLimit cfg user) req pb
        ⟨setSecurityHeaders (setCorsHeaders [] req.origin cfg.allowedDomains)
          cfg.useHttps cfg.useHttp2, rlIn⟩ = (Except.error e, s1) →
      (requestHandler cfg rlIn user jp fp req).statusCode = 500 ∧
      (requestHandler cfg rlIn user jp fp req).body =
        RespBody.obj [("error", "Internal Server Error"),
          ("message", if cfg.debug then e else "An unexpected error occurred")] := by
    intro user req pb e s1 hm hparse hrun
    simp only [requestHandler]
    rw [if_neg hm, hparse]
    dsimp only
    rw [hrun]
    exact ⟨rfl, rfl⟩
  refine ⟨hmain, ?_⟩
  intro hdbg user req pb e s1 user2 req2 pb2 e2 s2 hm hparse hrun hm2 hparse2 hrun2
  rw [(hmain user req pb e s1 hm hparse hrun).2,
    (hmain user2 req2 pb2 e2 s2 hm2 hparse2 hrun2).2]
  simp [hdbg]

/-! ## Rate-limit header placement -/

theorem handle_single_rlmw (cfg : Config) (hen : cfg.rateLimitEnabled = true)
    (user : Router) (hug : user.globalMiddlewares = [])
    (req : Request) (pb : ParsedBody) (route : Route)
    (params : List (String × String)) (resp : HandlerResponse)
    (hmatch : (installRateLimit cfg user).matchRoute
      (if req.method = "" then "GET" else req.method) req.path = some (route, params))
    (hmw : route.middlewares = [])
    (hh : route.handler = fun _ => Eff.pure resp)
    (hs1 : List (String × String)) (rlIn : RLState) :
    Router.handle (installRateLimit cfg user) req pb ⟨hs1, rlIn⟩ =
      (Except.ok (some (if (isAllowed (serverRL cfg) rlIn req.now
          (mwKey req.remoteAddress)).1 then resp else tooManyResp)),
       ⟨rlHeaders (serverRL cfg) rlIn req.now (mwKey req.remoteAddress) hs1,
        (isAllowed (serverRL cfg) rlIn req.now (mwKey req.remoteAddress)).2⟩) := by
  have hglob : (installRateLimit cfg user).globalMiddlewares =
      [rateLimitMiddleware (serverRL cfg)] := by
    simp [installRateLimit, hen, hug]
  simp only [Router.handle, hmatch]
  rw [hglob, hmw]
  simp only [List.append_nil, executeMiddlewareChain]
  rw [hh]
  simp only [rateLimitMiddleware, Eff.bind, Eff.pure, mwKey, rlHeaders, tooManyResp]
  by_cases hadm : (isAllowed (serverRL cfg) rlIn req.now
      (if req.remoteAddress = "" then "unknown" else req.remoteAddress)).1 = true
  · simp only [hadm, if_true]
  · simp only [hadm, Bool.false_eq_true, if_false]

/-- C9 amended: with rate limiting enabled the X-RateLimit-Limit,
X-RateLimit-Remaining and X-RateLimit-Reset headers are carried exactly by
the responses produced by running a matched route's middleware chain — both
admitted responses and 429 rejections — while responses produced without
running the chain carry none of them: the OPTIONS preflight 204, the 404
no-match response and the 400 body-parse failure all lack all three. -/
theorem rate_limit_headers_amended (cfg : Config) (hen : cfg.rateLimitEnabled = true)
    (rlIn : RLState) (jp : String → Except String JsVal)
    (fp : String → List (String × String)) :
    (∀ (user : Router) (req : Request) (pb : ParsedBody) (route : Route)
        (params : List (String × String)) (resp : HandlerResponse),
      user.globalMiddlewares = [] →
      req.method ≠ "OPTIONS" →
      parseBody jp fp req.contentType req.chunks = Except.ok pb →
      (installRateLimit cfg user).matchRoute
        (if req.method = "" then "GET" else req.method) req.path =
          some (route, params) →
      route.middlewares = [] →
      route.handler = (fun _ => Eff.pure resp) →
      resp.headers = [] → resp.handledFlag = false →
      (alGet (requestHandler cfg rlIn user jp fp req).headers "X-RateLimit-Limit" =
          some (toString (serverRL cfg).limit) ∧
        alGet (requestHandler cfg rlIn user jp fp req).headers "X-RateLimit-Remaining" =
          some (toString (getRemainingRequests (serverRL cfg) rlIn req.now
            (mwKey req.remoteAddress))) ∧
        alGet (requestHandler cfg rlIn user jp fp req).headers "X-RateLimit-Reset" =
          some (toString (getResetTime (serverRL cfg) rlIn req.now
            (mwKey req.remoteAddress))))) ∧
    (∀ (user : Router) (req : Request),
      req.method = "OPTIONS" →
      (alGet (requestHandler cfg rlIn user jp fp req).headers "X-RateLimit-Limit" = none ∧
        alGet (requestHandler cfg rlIn user jp fp req).headers "X-RateLimit-Remaining" = none ∧
        alGet (requestHandler cfg rlIn user jp fp req).headers "X-RateLimit-Reset" = none)) ∧
    (∀ (user : Router) (req : Request) (pb : ParsedBody),
      req.method ≠ "OPTIONS" →
      parseBody jp fp req.contentType req.chunks = Except.ok pb →
      (installRateLimit cfg user).matchRoute
        (if req.method = "" then "GET" else req.method) req.path = none →
      (alGet (requestHandler cfg rlIn user jp fp req).headers "X-RateLimit-Limit" = none ∧
        alGet (requestHandler cfg rlIn user jp fp req).headers "X-RateLimit-Remaining" = none ∧
        alGet (requestHandler cfg rlIn user jp fp req).headers "X-RateLimit-Reset" = none)) ∧
    (∀ (user : Router) (req : Request) (e : String),
      req.method ≠ "OPTIONS" →
      parseBody jp fp req.contentType req.chunks = Except.error e →
      (alGet (requestHandler cfg rlIn user jp fp req).headers "X-RateLimit-Limit" = none ∧
        alGet (requestHandler cfg rlIn user jp fp req).headers "X-RateLimit-Remaining" = none ∧
        alGet (requestHandler cfg rlIn user jp fp req).headers "X-RateLimit-Reset" = none)) := by
  refine ⟨?_, ?_, ?_, ?_⟩
  · intro user req pb route params resp hug hm hparse hmatch hmw hh hrh hflag
    have hhdl := handle_single_rlmw cfg hen user hug req pb route params resp
      hmatch hmw hh
      (setSecurityHeaders (setCorsHeaders [] req.origin cfg.allowedDomains)
        cfg.useHttps cfg.useHttp2) rlIn
    simp only [requestHandler]
    rw [if_neg hm, hparse]
    dsimp only
    rw [hhdl]
    by_cases hadm : (isAllowed (serverRL cfg) rlIn req.now
        (mwKey req.remoteAddress)).1 = true
    · simp only [hadm, if_true]
      rw [if_neg (by rw [hflag]; exact Bool.false_ne_true)]
      simp only [respond, hrh, List.foldl_nil, rlHeaders]
      refine ⟨?_, ?_, ?_⟩
      · rw [alGet_alSet_ne _ _ _ _ (by decide), alGet_alSet_ne _ _ _ _ (by decide),
          alGet_alSet_self]
      · rw [alGet_alSet_ne _ _ _ _ (by decide), alGet_alSet_self]
      · rw [alGet_alSet_self]
    · simp only [hadm, Bool.false_eq_true, if_false]
      rw [if_neg (by exact Bool.false_ne_true)]
      simp only [respond, List.foldl_cons, List.foldl_nil, rlHeaders, tooManyResp]
      refine ⟨?_, ?_, ?_⟩
      · rw [alGet_alSet_ne _ _ _ _ (by decide), alGet_alSet_ne _ _ _ _ (by decide),
          alGet_alSet_ne _ _ _ _ (by decide), alGet_alSet_self]
      · rw [alGet_alSet_ne _ _ _ _ (by decide), alGet_alSet_ne _ _ _ _ (by decide),
          alGet_alSet_self]
      · rw [alGet_alSet_ne _ _ _ _ (by decide), alGet_alSet_self]
  · intro user req hopt
    simp only [requestHandler]
    rw [if_pos hopt]
    refine ⟨?_, ?_, ?_⟩ <;>
      exact alGet_base_none _ _ _ _ _ (by decide) (by decide) (by decide) (by decide)
        (by decide) (by decide) (by decide) (by decide) (by decide) (by decide)
  · intro user req pb hm hparse hnomatch
    have hhdl : Router.handle (installRateLimit cfg user) req pb
        ⟨setSecurityHeaders (setCorsHeaders [] req.origin cfg.allowedDomains)
          cfg.useHttps cfg.useHttp2, rlIn⟩ =
        (Except.ok none,
          ⟨setSecurityHeaders (setCorsHeaders [] req.origin cfg.allowedDomains)
            cfg.useHttps cfg.useHttp2, rlIn⟩) := by
      simp only [Router.handle, hnomatch]
      rfl
    simp only [requestHandler]
    rw [if_neg hm, hparse]
    dsimp only
    rw [hhdl]
    simp only [respond, List.foldl_nil]
    refine ⟨?_, ?_, ?_⟩ <;>
      exact alGet_base_none _ _ _ _ _ (by decide) (by decide) (by decide) (by decide)
        (by decide) (by decide) (by decide) (by decide) (by decide) (by decide)
  · intro user req e hm hparse
    simp only [requestHandler]
    rw [if_neg hm, hparse]
    simp only [respond, List.foldl_nil]
    refine ⟨?_, ?_, ?_⟩ <;>
      exact alGet_base_none _ _ _ _ _ (by decide) (by decide) (by decide) (by decide)
        (by decide) (by decide) (by decide) (by decide) (by decide) (by decide)

/-- C9 counterexample: with rate limiting enabled, the 404 no-match
response, the OPTIONS preflight 204 and the 400 body-parse failure all
carry no X-RateLimit-Limit header (the rate limit middleware only runs
inside a matched route's chain), refuting the claim that every request's
response carries the rate-limit headers. -/
theorem rate_limit_headers_counterexample :
    demoCfgRL.rateLimitEnabled = true ∧
    (requestHandler demoCfgRL [] demoRouter9 jsonParse0 formParse0 demoReq404).statusCode
        = 404 ∧
    alGet (requestHandler demoCfgRL [] demoRouter9 jsonParse0 formParse0
      demoReq404).headers "X-RateLimit-Limit" = none ∧
    (requestHandler demoCfgRL [] demoRouter9 jsonParse0 formParse0 demoReqOpt).statusCode
        = 204 ∧
    alGet (requestHandler demoCfgRL [] demoRouter9 jsonParse0 formParse0
      demoReqOpt).headers "X-RateLimit-Limit" = none ∧
    (requestHandler demoCfgRL [] demoRouter9 jsonParseErr formParse0
      demoReqBadJson).statusCode = 400 ∧
    alGet (requestHandler demoCfgRL [] demoRouter9 jsonParseErr formParse0
      demoReqBadJson).headers "X-RateLimit-Limit" = none := by decide

/-- Witness for rate_limit_headers_amended: the matched route of demoRouter9
carries all three headers, while the preflight, the no-match request and the
malformed-JSON request carry none. -/
theorem rate_limit_headers_amended_witness :
    (alGet (requestHandler demoCfgRL [] demoRouter9 jsonParse0 formParse0
        demoReqA).headers "X-RateLimit-Limit" =
          some (toString (serverRL demoCfgRL).limit) ∧
      alGet (requestHandler demoCfgRL [] demoRouter9 jsonParse0 formParse0
        demoReqA).headers "X-RateLimit-Remaining" =
          some (toString (getRemainingRequests (serverRL demoCfgRL) [] demoReqA.now
            (mwKey demoReqA.remoteAddress))) ∧
      alGet (requestHandler demoCfgRL [] demoRouter9 jsonParse0 formParse0
        demoReqA).headers "X-RateLimit-Reset" =
          some (toString (getResetTime (serverRL demoCfgRL) [] demoReqA.now
            (mwKey demoReqA.remoteAddress)))) ∧
    (alGet (requestHandler demoCfgRL [] demoRouter9 jsonParse0 formParse0
        demoReqOpt).headers "X-RateLimit-Limit" = none ∧
      alGet (requestHandler demoCfgRL [] demoRouter9 jsonParse0 formParse0
        demoReqOpt).headers "X-RateLimit-Remaining" = none ∧
      alGet (requestHandler demoCfgRL [] demoRouter9 jsonParse0 formParse0
        demoReqOpt).headers "X-RateLimit-Reset" = none) ∧
    (alGet (requestHandler demoCfgRL [] demoRouter9 jsonParse0 formParse0
        demoReq404).headers "X-RateLimit-Limit" = none ∧
      alGet (requestHandler demoCfgRL [] demoRouter9 jsonParse0 formParse0
        demoReq404).headers "X-RateLimit-Remaining" = none ∧
      alGet (requestHandler demoCfgRL [] demoRouter9 jsonParse0 formParse0
        demoReq404).headers "X-RateLimit-Reset" = none) ∧
    (alGet (requestHandler demoCfgRL [] demoRouter9 jsonParseErr formParse0
        demoReqBadJson).headers "X-RateLimit-Limit" = none ∧
      alGet (requestHandler demoCfgRL [] demoRouter9 jsonParseErr formParse0
        demoReqBadJson).headers "X-RateLimit-Remaining" = none ∧
      alGet (requestHandler demoCfgRL [] demoRouter9 jsonParseErr formParse0
        demoReqBadJson).headers "X-RateLimit-Reset" = none) :=
  ⟨(rate_limit_headers_amended demoCfgRL rfl [] jsonParse0 formParse0).1
      demoRouter9 demoReqA ParsedBody.empty
      ⟨"GET", "/a", fun _ => Eff.pure ⟨200, .str "ok", [], false, false⟩, []⟩ []
      ⟨200, .str "ok", [], false, false⟩
      rfl (by decide) rfl rfl rfl rfl rfl rfl,
    (rate_limit_headers_amended demoCfgRL rfl [] jsonParse0 formParse0).2.1
      demoRouter9 demoReqOpt rfl,
    (rate_limit_headers_amended demoCfgRL rfl [] jsonParse0 formParse0).2.2.1
      demoRouter9 demoReq404 ParsedBody.empty (by decide) rfl rfl,
    (rate_limit_headers_amended demoCfgRL rfl [] jsonParseErr formParse0).2.2.2
      demoRouter9 demoReqBadJson
      ("Invalid JSON in request body: " ++ "Unexpected token b in JSON at position 1")
      (by decide) rfl⟩

theorem rlKey_mwKey (a : String) : rlKey (mwKey a) = mwKey a := by
  by_cases h : a = "" <;> simp [rlKey, mwKey, h]

/-- C10: the X-RateLimit-Remaining header is computed by
getRemainingRequests on the limiter state before isAllowed counts the
current request: with the entry of the key at count n-1 inside a live
window (the n-th request of the window), the header reads max(0, L-(n-1)),
and with no entry (the first request of a fresh window) it reads the full
limit L rather than L-1. -/
theorem remaining_header_precount (L W : Nat) (rl : RLState) (ctx : Context)
    (R : HandlerResponse) (s : SrvState) (hsrl : s.rl = rl) :
    (∀ n rt : Nat, 1 ≤ n → ctx.now ≤ rt →
      alGet rl (mwKey ctx.remoteAddress) = some ⟨n - 1, rt⟩ →
      alGet (rateLimitMiddleware ⟨L, W⟩ ctx (Eff.pure R) s).2.headers
          "X-RateLimit-Remaining" =
        some (toString (max 0 ((L : Int) - ((n : Int) - 1))))) ∧
    (alGet rl (mwKey ctx.remoteAddress) = none →
      alGet (rateLimitMiddleware ⟨L, W⟩ ctx (Eff.pure R) s).2.headers
          "X-RateLimit-Remaining" =
        some (toString (L : Int))) := by
  have hout : (rateLimitMiddleware ⟨L, W⟩ ctx (Eff.pure R) s).2 =
      ⟨rlHeaders ⟨L, W⟩ s.rl ctx.now (mwKey ctx.remoteAddress) s.headers,
       (isAllowed ⟨L, W⟩ s.rl ctx.now (mwKey ctx.remoteAddress)).2⟩ := by
    simp only [rateLimitMiddleware, rlHeaders, mwKey, Eff.pure]
    by_cases hadm : (isAllowed ⟨L, W⟩ s.rl ctx.now
        (if ctx.remoteAddress = "" then "unknown" else ctx.remoteAddress)).1 = true
    · simp [hadm]
    · simp [hadm]
  constructor
  · intro n rt hn hwin hget
    rw [hout]
    simp only [rlHeaders]
    rw [alGet_alSet_ne _ _ _ _ (by decide), alGet_alSet_self]
    simp only [getRemainingRequests, rlKey_mwKey, hsrl, hget]
    rw [if_neg (by omega)]
    have hcast : ((n - 1 : Nat) : Int) = (n : Int) - 1 := by omega
    rw [hcast]
  · intro hget
    rw [hout]
    simp only [rlHeaders]
    rw [alGet_alSet_ne _ _ _ _ (by decide), alGet_alSet_self]
    simp only [getRemainingRequests, rlKey_mwKey, hsrl, hget]

/-- Witness for remaining_header_precount: a key at count 3 of a live
window with limit 5 reads remaining 2; a fresh key reads the full 5. -/
theorem remaining_header_precount_witness :
    (alGet (rateLimitMiddleware ⟨5, 60000⟩
        ⟨[], [], ParsedBody.empty, [], "/a", [], "9.9.9.9", 5000⟩
        (Eff.pure demoShortResp)
        ⟨[], [("9.9.9.9", ⟨3, 90000⟩)]⟩).2.headers "X-RateLimit-Remaining" =
      some (toString (max 0 ((5 : Int) - ((4 : Int) - 1))))) ∧
    (alGet (rateLimitMiddleware ⟨5, 60000⟩
        ⟨[], [], ParsedBody.empty, [], "/a", [], "9.9.9.9", 5000⟩
        (Eff.pure demoShortResp) ⟨[], []⟩).2.headers "X-RateLimit-Remaining" =
      some (toString ((5 : Int)))) :=
  ⟨(remaining_header_precount 5 60000 [("9.9.9.9", ⟨3, 90000⟩)]
      ⟨[], [], ParsedBody.empty, [], "/a", [], "9.9.9.9", 5000⟩ demoShortResp
      ⟨[], [("9.9.9.9", ⟨3, 90000⟩)]⟩ rfl).1 4 90000 (by decide) (by decide) (by decide),
    (remaining_header_precount 5 60000 []
      ⟨[], [], ParsedBody.empty, [], "/a", [], "9.9.9.9", 5000⟩ demoShortResp
      ⟨[], []⟩ rfl).2 (by decide)⟩

/-! ## Wildcard matching lemmas -/

theorem matchParts_nil (tl : PatTail) (rest : List Char) :
    matchParts [] tl rest = (matchTail tl rest).map (fun w => ([], w)) := rfl

theorem matchParts_lit_nil (c : Char) (ps : List RegexPart) (tl : PatTail) :
    matchParts (.lit c :: ps) tl [] = none := rfl

theorem matchParts_lit (c : Char) (ps : List RegexPart) (tl : PatTail)
    (x : Char) (xs : List Char) :
    matchParts (.lit c :: ps) tl (x :: xs) =
      if x = c then matchParts ps tl xs else none := rfl

theorem matchParts_seg (ps : List RegexPart) (tl : PatTail) (rest : List Char) :
    matchParts (.seg :: ps) tl rest =
      (greedyFirst (matchParts ps tl) (rest.takeWhile (fun x => x ≠ '/'))
        (rest.dropWhile (fun x => x ≠ '/'))
        (rest.takeWhile (fun x => x ≠ '/')).length).map
        (fun p => (p.1 :: p.2.1, p.2.2)) := rfl

theorem dropWhile_head_false {p : Char → Bool} :
    ∀ (l : List Char) (c : Char) (cs : List Char),
      l.dropWhile p = c :: cs → p c = false := by
  intro l
  induction l with
  | nil => intro c cs h; simp [List.dropWhile] at h
  | cons a as ih =>
    intro c cs h
    by_cases hp : p a = true
    · rw [List.dropWhile_cons_of_pos hp] at h
      exact ih c cs h
    · rw [List.dropWhile_cons_of_neg hp] at h
      cases h
      exact Bool.eq_false_iff.mpr hp

theorem noSlashFail (ps : List RegexPart) (tl : PatTail) (hsl : SlashLead ps)
    (c : Char) (rest : List Char) (hc : c ≠ '/') :
    matchParts ps tl (c :: rest) = none := by
  rcases hsl with h | ⟨ps2, h⟩
  · subst h
    rw [matchParts_nil]
    cases tl with
    | exact => simp [matchTail]
    | optSlash =>
      simp only [matchTail]
      rw [if_neg (by simp), if_neg (by simp [hc]), Option.map_none']
    | wildcard =>
      simp only [matchTail]
      rw [if_neg hc, Option.map_none']
  · subst h
    rw [matchParts_lit]
    rw [if_neg hc]

theorem greedyFirst_inv {α : Type} (f : List Char → Option α) (run rest : List Char) :
    ∀ (i : Nat) (cap : List Char) (a : α),
      greedyFirst f run rest i = some (cap, a) → ∃ q, f q = some a := by
  intro i
  induction i with
  | zero => intro cap a h; simp [greedyFirst] at h
  | succ k ih =>
    intro cap a h
    simp only [greedyFirst] at h
    cases hf : f (run.drop (k + 1) ++ rest) with
    | some b =>
      rw [hf] at h
      cases h
      exact ⟨_, hf⟩
    | none =>
      rw [hf] at h
      exact ih cap a h

theorem capsLen (ps : List RegexPart) :
    ∀ (tl : PatTail) (rest : List Char) (caps : List (List Char))
      (w : Option (List Char)),
      matchParts ps tl rest = some (caps, w) → caps.length = segCount ps := by
  induction ps with
  | nil =>
    intro tl rest caps w h
    rw [matchParts_nil] at h
    cases htl : matchTail tl rest with
    | none => rw [htl] at h; simp at h
    | some w2 =>
      rw [htl] at h
      simp only [Option.map_some'] at h
      cases h
      rfl
  | cons p ps ih =>
    intro tl rest caps w h
    cases p with
    | lit c =>
      cases rest with
      | nil => rw [matchParts_lit_nil] at h; cases h
      | cons x xs =>
        rw [matchParts_lit] at h
        by_cases hx : x = c
        · rw [if_pos hx] at h
          exact ih tl xs caps w h
        · rw [if_neg hx] at h; cases h
    | seg =>
      rw [matchParts_seg] at h
      cases hg : greedyFirst (matchParts ps tl) (rest.takeWhile (fun x => x ≠ '/'))
          (rest.dropWhile (fun x => x ≠ '/'))
          (rest.takeWhile (fun x => x ≠ '/')).length with
      | none => rw [hg] at h; simp at h
      | some pr =>
        rw [hg] at h
        simp only [Option.map_some'] at h
        cases h
        obtain ⟨q, hq⟩ := greedyFirst_inv _ _ _ _ _ _ hg
        simp only [List.length_cons, segCount]
        rw [ih tl q pr.2.1 pr.2.2 hq]

theorem greedy_hit {α : Type} (f : List Char → Option α) (run rest : List Char)
    (i : Nat) (a : α) (h : f (run.drop (i + 1) ++ rest) = some a) :
    greedyFirst f run rest (i + 1) = some (run.take (i + 1), a) := by
  simp only [greedyFirst, h]

theorem segTry_eq (ps : List RegexPart) (tl : PatTail) (run rest : List Char)
    (hrun : ∀ c ∈ run, c ≠ '/') (hsl : SlashLead ps) (hlen : 1 ≤ run.length) :
    greedyFirst (matchParts ps tl) run rest run.length =
      (matchParts ps tl rest).map (fun a => (run, a)) := by
  obtain ⟨i, hi⟩ : ∃ i, run.length = i + 1 := ⟨run.length - 1, by omega⟩
  have hfail : ∀ j, j ≤ i → greedyFirst (matchParts ps tl) run rest j = none := by
    intro j
    induction j with
    | zero => intro _; rfl
    | succ k ih =>
      intro hk
      have hlt : k + 1 < run.length := by omega
      have hdeq : run.drop (k + 1) = run[k + 1] :: run.drop (k + 2) :=
        List.drop_eq_getElem_cons hlt
      have hc : run[k + 1] ≠ '/' := hrun _ (List.getElem_mem hlt)
      simp only [greedyFirst, hdeq, List.cons_append]
      rw [noSlashFail ps tl hsl _ _ hc]
      exact ih (by omega)
  rw [hi]
  simp only [greedyFirst]
  rw [show run.drop (i + 1) = [] from by rw [← hi]; exact List.drop_length run]
  rw [List.nil_append]
  cases hres : matchParts ps tl rest with
  | some a =>
    simp only [Option.map_some']
    rw [show run.take (i + 1) = run from by rw [← hi]; exact List.take_length run]
  | none =>
    simp only [Option.map_none']
    exact hfail i (Nat.le_refl i)

theorem takeWhile_dropWhile_append (p : Char → Bool) :
    ∀ (a b : List Char), (∀ x ∈ a, p x = true) →
      (∀ c cs, b = c :: cs → p c = false) →
      (a ++ b).takeWhile p = a ∧ (a ++ b).dropWhile p = b := by
  intro a
  induction a with
  | nil =>
    intro b _ hb
    cases b with
    | nil => simp
    | cons c cs =>
      have := hb c cs rfl
      constructor
      · simp [List.takeWhile_cons, this]
      · simp [List.dropWhile_cons, this]
  | cons x a ih =>
    intro b ha hb
    have hx : p x = true := ha x (by simp)
    have hrest := ih b (fun y hy => ha y (by simp [hy])) hb
    constructor
    · simp only [List.cons_append, List.takeWhile_cons, hx, if_true]
      rw [hrest.1]
    · simp only [List.cons_append, List.dropWhile_cons, hx, if_true]
      exact hrest.2

theorem rewriteParamsF_fuel :
    ∀ (f1 : Nat), ∀ (f2 : Nat) (l : List Char), l.length ≤ f1 → l.length ≤ f2 →
      rewriteParamsF f1 l = rewriteParamsF f2 l := by
  intro f1
  induction f1 with
  | zero =>
    intro f2 l h1 _
    have : l = [] := List.length_eq_zero.mp (by omega)
    subst this
    cases f2 <;> rfl
  | succ k ih =>
    intro f2 l h1 h2
    cases l with
    | nil => cases f2 <;> rfl
    | cons x xs =>
      cases f2 with
      | zero => simp at h2
      | succ k2 =>
        cases xs with
        | nil =>
          simp only [rewriteParamsF]
        | cons y ys =>
          cases ys with
          | nil =>
            simp only [rewriteParamsF]
            rw [ih k2 [y] (by simp at h1 ⊢; omega) (by simp at h2 ⊢; omega)]
          | cons z rest =>
            simp only [rewriteParamsF]
            by_cases hcond : x = '/' ∧ y = ':' ∧ z ≠ '/'
            · rw [if_pos hcond, if_pos hcond]
              have hd : ((z :: rest).dropWhile (fun c => c ≠ '/')).length ≤
                  (z :: rest).length := (List.dropWhile_sublist _).length_le
              simp only [List.length_cons] at h1 h2 hd
              rw [ih k2 _ (by omega) (by omega)]
            · rw [if_neg hcond, if_neg hcond]
              simp only [List.length_cons] at h1 h2
              rw [ih k2 (y :: z :: rest) (by simp; omega) (by simp; omega)]

theorem rewriteParams_cons3 (x y z : Char) (rest : List Char) :
    rewriteParams (x :: y :: z :: rest) =
      if x = '/' ∧ y = ':' ∧ z ≠ '/' then
        (.lit '/' :: .seg ::
            (rewriteParams ((z :: rest).dropWhile (fun c => c ≠ '/'))).1,
          ((z :: rest).takeWhile (fun c => c ≠ '/')).asString ::
            (rewriteParams ((z :: rest).dropWhile (fun c => c ≠ '/'))).2)
      else
        (.lit x :: (rewriteParams (y :: z :: rest)).1,
          (rewriteParams (y :: z :: rest)).2) := by
  show rewriteParamsF (x :: y :: z :: rest).length _ = _
  simp only [List.length_cons, rewriteParamsF]
  by_cases hcond : x = '/' ∧ y = ':' ∧ z ≠ '/'
  · rw [if_pos hcond, if_pos hcond]
    have hd : ((z :: rest).dropWhile (fun c => c ≠ '/')).length ≤
        (z :: rest).length := (List.dropWhile_sublist _).length_le
    simp only [List.length_cons] at hd
    rw [rewriteParamsF_fuel (rest.length + 1 + 1)
      ((z :: rest).dropWhile (fun c => c ≠ '/')).length
      ((z :: rest).dropWhile (fun c => c ≠ '/')) (by omega) (by omega)]
    rfl
  · rw [if_neg hcond, if_neg hcond]
    rfl

theorem rewriteHead (x : Char) (xs : List Char) :
    ∃ tl2, (rewriteParams (x :: xs)).1 = .lit x :: tl2 := by
  cases xs with
  | nil => exact ⟨[], rfl⟩
  | cons y ys =>
    cases ys with
    | nil => exact ⟨(rewriteParams [y]).1, rfl⟩
    | cons z rest =>
      rw [rewriteParams_cons3]
      by_cases hcond : x = '/' ∧ y = ':' ∧ z ≠ '/'
      · rw [if_pos hcond]
        exact ⟨_, by rw [hcond.1]⟩
      · rw [if_neg hcond]
        exact ⟨_, rfl⟩

theorem SegOk_rewrite : ∀ (n : Nat) (l : List Char), l.length ≤ n →
    SegOk (rewriteParams l).1 := by
  intro n
  induction n with
  | zero =>
    intro l h
    have : l = [] := List.length_eq_zero.mp (by omega)
    subst this
    simp [rewriteParams, rewriteParamsF, SegOk]
  | succ k ih =>
    intro l h
    cases l with
    | nil => simp [rewriteParams, rewriteParamsF, SegOk]
    | cons x xs =>
      cases xs with
      | nil => simp [rewriteParams, rewriteParamsF, SegOk]
      | cons y ys =>
        cases ys with
        | nil =>
          show SegOk (rewriteParams [x, y]).1
          exact trivial
        | cons z rest =>
          rw [rewriteParams_cons3]
          by_cases hcond : x = '/' ∧ y = ':' ∧ z ≠ '/'
          · rw [if_pos hcond]
            have hd : ((z :: rest).dropWhile (fun c => c ≠ '/')).length ≤
                (z :: rest).length := (List.dropWhile_sublist _).length_le
            simp only [List.length_cons] at h hd
            have hih := ih ((z :: rest).dropWhile (fun c => c ≠ '/')) (by omega)
            show SegOk (.lit '/' :: .seg :: _)
            simp only [SegOk]
            refine ⟨?_, hih⟩
            cases hdw : (z :: rest).dropWhile (fun c => c ≠ '/') with
            | nil => left; simp [rewriteParams, rewriteParamsF]
            | cons c cs =>
              right
              have hc : (fun c => decide (c ≠ '/')) c = false :=
                dropWhile_head_false (z :: rest) c cs hdw
              have hc2 : c = '/' := by simpa using hc
              obtain ⟨tl2, htl2⟩ := rewriteHead c cs
              rw [htl2, hc2]
              exact ⟨tl2, rfl⟩
          · rw [if_neg hcond]
            simp only [List.length_cons] at h
            have hih := ih (y :: z :: rest) (by simp; omega)
            show SegOk (.lit x :: _)
            simpa [SegOk] using hih

theorem SegOk_dropLast : ∀ (l : List RegexPart), SegOk l → SegOk l.dropLast := by
  intro l
  induction l with
  | nil => intro _; simp [SegOk]
  | cons a as ih =>
    intro h
    cases as with
    | nil => cases a <;> simp [List.dropLast, SegOk]
    | cons b bs =>
      have hdl : (a :: b :: bs).dropLast = a :: (b :: bs).dropLast := rfl
      rw [hdl]
      cases a with
      | lit c =>
        simp only [SegOk] at h ⊢
        exact ih h
      | seg =>
        simp only [SegOk] at h ⊢
        obtain ⟨hhead, hrest⟩ := h
        refine ⟨?_, ih hrest⟩
        cases bs with
        | nil => left; rfl
        | cons b2 bs2 =>
          rcases hhead with habs | ⟨ps, hps⟩
          · exact absurd habs (by simp)
          · have hb : b = .lit '/' := by
              have := List.cons.injEq .. ▸ hps
              exact (List.cons.inj hps).1
            right
            rw [show (b :: b2 :: bs2).dropLast = b :: (b2 :: bs2).dropLast from rfl, hb]
            exact ⟨_, rfl⟩

theorem segCount_append : ∀ (a b : List RegexPart),
    segCount (a ++ b) = segCount a + segCount b := by
  intro a b
  induction a with
  | nil => simp [segCount]
  | cons p ps ih =>
    cases p with
    | lit c => simpa [segCount] using ih
    | seg => simp [segCount, ih]; omega

theorem namesLen : ∀ (n : Nat) (l : List Char), l.length ≤ n →
    (rewriteParams l).2.length = segCount (rewriteParams l).1 := by
  intro n
  induction n with
  | zero =>
    intro l h
    have : l = [] := List.length_eq_zero.mp (by omega)
    subst this
    rfl
  | succ k ih =>
    intro l h
    cases l with
    | nil => rfl
    | cons x xs =>
      cases xs with
      | nil => rfl
      | cons y ys =>
        cases ys with
        | nil => rfl
        | cons z rest =>
          rw [rewriteParams_cons3]
          by_cases hcond : x = '/' ∧ y = ':' ∧ z ≠ '/'
          · rw [if_pos hcond]
            have hd : ((z :: rest).dropWhile (fun c => c ≠ '/')).length ≤
                (z :: rest).length := (List.dropWhile_sublist _).length_le
            simp only [List.length_cons] at h hd
            have hih := ih ((z :: rest).dropWhile (fun c => c ≠ '/')) (by omega)
            simp only [List.length_cons, segCount]
            omega
          · rw [if_neg hcond]
            simp only [List.length_cons] at h
            have hih := ih (y :: z :: rest) (by simp; omega)
            simp only [List.length_cons, segCount]
            omega

theorem endsSlashStar_decomp (ps : List RegexPart) (h : endsSlashStar ps = true) :
    ∃ qs, ps = qs ++ [.lit '/', .lit '*'] ∧ ps.dropLast.dropLast = qs := by
  rw [endsSlashStar] at h
  cases hrev : ps.reverse with
  | nil => rw [hrev] at h; simp at h
  | cons p1 r1 =>
    cases p1 with
    | seg => rw [hrev] at h; simp at h
    | lit c1 =>
      cases r1 with
      | nil => rw [hrev] at h; simp at h
      | cons p2 r2 =>
        cases p2 with
        | seg => rw [hrev] at h; simp at h
        | lit c2 =>
          rw [hrev] at h
          simp only [Bool.and_eq_true, decide_eq_true_eq] at h
          obtain ⟨hc1, hc2⟩ := h
          have hps : ps = r2.reverse ++ [.lit '/', .lit '*'] := by
            have : ps = ps.reverse.reverse := (List.reverse_reverse ps).symm
            rw [this, hrev, hc1, hc2]
            simp
          refine ⟨r2.reverse, hps, ?_⟩
          rw [hps]
          rw [show r2.reverse ++ [RegexPart.lit '/', RegexPart.lit '*'] =
            (r2.reverse ++ [RegexPart.lit '/']) ++ [RegexPart.lit '*'] from by simp]
          rw [List.dropLast_concat, List.dropLast_concat]

theorem seg_wildcard_extend : ∀ (ps : List RegexPart), SegOk ps →
    ∀ (p0 : List Char) (caps : List (List Char)),
      matchParts ps .exact p0 = some (caps, none) →
      matchParts ps .wildcard p0 = some (caps, none) ∧
      (∀ u : List Char, u.all jsDotOk = true →
        matchParts ps .wildcard (p0 ++ '/' :: u) = some (caps, some u)) := by
  intro ps
  induction ps with
  | nil =>
    intro _ p0 caps h
    rw [matchParts_nil] at h
    by_cases hp : p0 = []
    · subst hp
      have hcaps : caps = [] := by
        simp only [matchTail, if_pos, Option.map_some', Option.some.injEq,
          Prod.mk.injEq] at h
        exact h.1.symm
      subst hcaps
      constructor
      · rfl
      · intro u hu
        rw [List.nil_append, matchParts_nil]
        simp [matchTail, hu]
    · simp [matchTail, hp] at h
  | cons p ps ih =>
    intro hok p0 caps h
    cases p with
    | lit c =>
      have hok2 : SegOk ps := by
        simpa [SegOk] using hok
      cases p0 with
      | nil => rw [matchParts_lit_nil] at h; cases h
      | cons x xs =>
        rw [matchParts_lit] at h
        by_cases hx : x = c
        · rw [if_pos hx] at h
          obtain ⟨h1, h2⟩ := ih hok2 xs caps h
          constructor
          · rw [matchParts_lit, if_pos hx]
            exact h1
          · intro u hu
            rw [List.cons_append, matchParts_lit, if_pos hx]
            exact h2 u hu
        · rw [if_neg hx] at h; cases h
    | seg =>
      have hok2 : SlashLead ps ∧ SegOk ps := by
        rw [SegOk] at hok
        exact ⟨hok.1, hok.2⟩
      obtain ⟨hsl, hok3⟩ := hok2
      rw [matchParts_seg] at h
      have hrunall : ∀ c2 ∈ p0.takeWhile (fun x => x ≠ '/'), c2 ≠ '/' := by
        intro c2 hc2
        have := List.mem_takeWhile_imp hc2
        simpa using this
      cases hL : (p0.takeWhile (fun x => x ≠ '/')).length with
      | zero =>
        rw [hL] at h
        simp [greedyFirst] at h
      | succ i =>
        have hlen : 1 ≤ (p0.takeWhile (fun x => x ≠ '/')).length := by omega
        rw [segTry_eq ps .exact _ _ hrunall hsl hlen] at h
        rw [Option.map_map] at h
        rcases Option.map_eq_some'.mp h with ⟨a, ha, ha2⟩
        rcases a with ⟨caps1, w1⟩
        simp only [Function.comp, Prod.mk.injEq] at ha2
        obtain ⟨hcaps, hw⟩ := ha2
        subst hw
        obtain ⟨h1, h2⟩ := ih hok3 (p0.dropWhile (fun x => x ≠ '/')) caps1 ha
        constructor
        · rw [matchParts_seg]
          rw [segTry_eq ps .wildcard _ _ hrunall hsl hlen]
          rw [h1, Option.map_some', Option.map_some']
          rw [← hcaps]
        · intro u hu
          have hsplit : p0.takeWhile (fun x => x ≠ '/') ++
              p0.dropWhile (fun x => x ≠ '/') = p0 :=
            List.takeWhile_append_dropWhile _ p0
          have hbhead : ∀ c3 cs3, p0.dropWhile (fun x => x ≠ '/') ++ '/' :: u =
              c3 :: cs3 → (fun x => decide (x ≠ '/')) c3 = false := by
            intro c3 cs3 heq
            cases hdw : p0.dropWhile (fun x => x ≠ '/') with
            | nil =>
              rw [hdw, List.nil_append] at heq
              cases heq
              simp
            | cons d ds =>
              have := dropWhile_head_false p0 d ds hdw
              rw [hdw, List.cons_append] at heq
              cases heq
              exact this
          have htw := takeWhile_dropWhile_append (fun x => decide (x ≠ '/'))
            (p0.takeWhile (fun x => x ≠ '/'))
            (p0.dropWhile (fun x => x ≠ '/') ++ '/' :: u)
            (by
              intro x hx
              have := List.mem_takeWhile_imp hx
              simpa using this) hbhead
          have happ : p0 ++ '/' :: u =
              p0.takeWhile (fun x => x ≠ '/') ++
                (p0.dropWhile (fun x => x ≠ '/') ++ '/' :: u) := by
            rw [← List.append_assoc, hsplit]
          rw [matchParts_seg, happ, htw.1, htw.2]
          rw [segTry_eq ps .wildcard _ _ hrunall hsl hlen]
          rw [h2 u hu, Option.map_some', Option.map_some']
          rw [← hcaps]

theorem alGet_assignParams_wildcard :
    ∀ (names : List String) (capsOpt : List (Option (List Char)))
      (ps0 : List (String × String)) (w : Option (List Char)),
      names.length = capsOpt.length →
      alGet (assignParams ps0 (names ++ ["wildcard"]) (capsOpt ++ [w]))
        "wildcard" = some ((w.getD []).asString) := by
  intro names
  induction names with
  | nil =>
    intro capsOpt ps0 w h
    cases capsOpt with
    | nil =>
      simp only [List.nil_append, assignParams, List.head?_cons, Option.getD_some,
        List.tail_cons]
      exact alGet_alSet_self _ _ _
    | cons c cs => simp at h
  | cons n ns ih =>
    intro capsOpt ps0 w h
    cases capsOpt with
    | nil => simp at h
    | cons c cs =>
      simp only [List.cons_append, assignParams, List.head?_cons, Option.getD_some,
        List.tail_cons]
      exact ih cs _ w (by simpa using h)

theorem createPathPattern_wildcard (t : String)
    (hwc : (createPathPattern t).tail = PatTail.wildcard) :
    endsSlashStar (rewriteParams t.data).1 = true ∧
    (createPathPattern t).parts = (rewriteParams t.data).1.dropLast.dropLast ∧
    (createPathPattern t).paramNames = (rewriteParams t.data).2 ++ ["wildcard"] := by
  by_cases h1 : endsSlashStar (rewriteParams t.data).1 = true
  · have hc : createPathPattern t =
        ⟨(rewriteParams t.data).1.dropLast.dropLast, .wildcard,
          (rewriteParams t.data).2 ++ ["wildcard"]⟩ := by
      simp [createPathPattern, h1]
    exact ⟨h1, by rw [hc], by rw [hc]⟩
  · exfalso
    by_cases h2 : endsSlash (rewriteParams t.data).1 = true
    · have hc : createPathPattern t =
          ⟨(rewriteParams t.data).1.dropLast, .optSlash, (rewriteParams t.data).2⟩ := by
        simp [createPathPattern, h1, h2]
      rw [hc] at hwc
      simp at hwc
    · have hc : createPathPattern t =
          ⟨(rewriteParams t.data).1, .exact, (rewriteParams t.data).2⟩ := by
        simp [createPathPattern, h1, h2]
      rw [hc] at hwc
      simp at hwc

/-! ## Coincidence of the direct matcher with the regex-source semantics -/

theorem regexExec_nil (tl : PatTail) (rest : List Char) :
    regexExec [] tl rest = (matchTail tl rest).map (fun w => ([], w)) := rfl

theorem regexExec_ch_nil (c : Char) (ps : List QPart) (tl : PatTail) :
    regexExec (.ch c :: ps) tl [] = none := rfl

theorem regexExec_ch (c : Char) (ps : List QPart) (tl : PatTail)
    (x : Char) (xs : List Char) :
    regexExec (.ch c :: ps) tl (x :: xs) =
      if x = c then regexExec ps tl xs else none := rfl

theorem regexExec_seg (ps : List QPart) (tl : PatTail) (rest : List Char) :
    regexExec (.seg :: ps) tl rest =
      (greedyFirst (regexExec ps tl) (rest.takeWhile (fun x => x ≠ '/'))
        (rest.dropWhile (fun x => x ≠ '/'))
        (rest.takeWhile (fun x => x ≠ '/')).length).map
        (fun p => (p.1 :: p.2.1, p.2.2)) := rfl

theorem greedyFirst_congr {α : Type} (f g : List Char → Option α)
    (hfg : ∀ x, f x = g x) (run rest : List Char) (i : Nat) :
    greedyFirst f run rest i = greedyFirst g run rest i := by
  induction i with
  | zero => rfl
  | succ k ih =>
    simp only [greedyFirst, hfg]
    rw [ih]

/-- A metacharacter-free pattern fragment never starts with a quantifier:
all four quantifier lead characters are metacharacters. -/
theorem quantHead_of_plain (parts : List RegexPart)
    (h : litsPlain parts = true) : quantHead parts = false := by
  cases parts with
  | nil => rfl
  | cons p rest =>
    cases p with
    | seg => rfl
    | lit c =>
      have hc : regexMeta c = false := by
        simp only [litsPlain, List.all_cons, Bool.and_eq_true] at h
        simpa using h.1
      by_cases h1 : c = '+'
      · subst h1; exact absurd hc (by decide)
      · by_cases h2 : c = '*'
        · subst h2; exact absurd hc (by decide)
        · by_cases h3 : c = '?'
          · subst h3; exact absurd hc (by decide)
          · by_cases h4 : c = Char.ofNat 0x7b
            · subst h4; exact absurd hc (by decide)
            · simp [quantHead, h1, h2, h3, h4]

/-- On metacharacter-free parts the regex-source reading of the fragment is
defined and is the one-atom-per-part rename: no quantifier arm ever fires. -/
theorem quantifyParts_plain (parts : List RegexPart)
    (h : litsPlain parts = true) :
    quantifyParts parts = some (parts.map toQPart) := by
  induction parts with
  | nil => rfl
  | cons p ps ih =>
    have hps : litsPlain ps = true := by
      simp only [litsPlain, List.all_cons, Bool.and_eq_true] at h
      exact h.2
    have hqh : quantHead ps = false := quantHead_of_plain ps hps
    cases p with
    | seg =>
      rw [show quantifyParts (.seg :: ps) =
          (if quantHead ps then none
           else (quantifyParts ps).map (fun qs => QPart.seg :: qs)) from rfl]
      simp [hqh, ih hps, toQPart]
    | lit c =>
      have hc : regexMeta c = false := by
        simp only [litsPlain, List.all_cons, Bool.and_eq_true] at h
        simpa using h.1
      cases ps with
      | nil =>
        rw [show quantifyParts [.lit c] =
            (if regexMeta c then none else some [QPart.ch c]) from rfl]
        simp [hc, toQPart]
      | cons r rs =>
        cases r with
        | seg =>
          rw [show quantifyParts (.lit c :: .seg :: rs) =
              (if regexMeta c then none
               else if quantHead (.seg :: rs) then none
               else (quantifyParts (.seg :: rs)).map
                 (fun qs => QPart.ch c :: qs)) from rfl]
          simp [hc, hqh, ih hps, toQPart]
        | lit c2 =>
          have hc2 : c2 ≠ '+' := by
            intro hEq
            have hc2m : regexMeta c2 = false := by
              simp only [litsPlain, List.all_cons, Bool.and_eq_true] at hps
              simpa using hps.1
            rw [hEq] at hc2m
            exact absurd hc2m (by decide)
          rw [show quantifyParts (.lit c :: .lit c2 :: rs) =
              (if regexMeta c then none
               else if c2 = '+' then
                 (if quantHead rs then none
                  else (quantifyParts rs).map (fun qs => QPart.chPlus c :: qs))
               else if quantHead (.lit c2 :: rs) then none
               else (quantifyParts (.lit c2 :: rs)).map
                 (fun qs => QPart.ch c :: qs)) from rfl]
          simp [hc, hc2, hqh, ih hps, toQPart]

/-- Running the fragment semantics on the renamed atoms is exactly the
direct matcher: each ch atom is an exact character and each seg atom the
same greedy capture group, for every tail and input. -/
theorem regexExec_toQPart (parts : List RegexPart) (tl : PatTail)
    (rest : List Char) :
    regexExec (parts.map toQPart) tl rest = matchParts parts tl rest := by
  induction parts generalizing rest with
  | nil => rfl
  | cons p ps ih =>
    cases p with
    | lit c =>
      cases rest with
      | nil => rfl
      | cons x xs =>
        rw [show (List.map toQPart (.lit c :: ps)) = .ch c :: ps.map toQPart
          from rfl]
        rw [regexExec_ch, matchParts_lit]
        by_cases hx : x = c
        · rw [if_pos hx, if_pos hx, ih]
        · rw [if_neg hx, if_neg hx]
    | seg =>
      rw [show (List.map toQPart (.seg :: ps)) = .seg :: ps.map toQPart
        from rfl]
      rw [regexExec_seg, matchParts_seg]
      rw [greedyFirst_congr (regexExec (ps.map toQPart) tl) (matchParts ps tl)
        (fun x => ih x) _ _ _]

/-- C4 counterexample: the template of slash, a, plus, slash, star compiles
with the wildcard tail, its stripped fragment reads in regex source as an
exact slash followed by one-or-more a (the plus is a quantifier, not a
literal), and that regex rejects the exact prefix path of the template,
with and without a trailing slash - so the claimed acceptance of the prefix
path fails for metacharacter templates. -/
theorem wildcard_metachar_counterexample :
    (createPathPattern "/a+/*").tail = PatTail.wildcard ∧
    quantifyParts (createPathPattern "/a+/*").parts =
      some [QPart.ch '/', QPart.chPlus 'a'] ∧
    regexExec [QPart.ch '/', QPart.chPlus 'a'] PatTail.wildcard
      "/a+".data = none ∧
    regexExec [QPart.ch '/', QPart.chPlus 'a'] PatTail.wildcard
      ("/a+" ++ "/").data = none := by
  decide

/-- C4 (amended): for a template compiled with the wildcard tail (the
createPathPattern branch for templates ending in slash-star) none of whose
remaining literal characters is a regex metacharacter - the domain on which
the exact-character reading of the parts provably coincides with the
regex-source reading (quantifyParts_plain and regexExec_toQPart) - matching
accepts every path the stripped prefix pattern matches exactly, with or
without a trailing slash, binding the parameter named wildcard to the empty
string, and accepts every strictly deeper path (a slash plus any further
line-terminator-free characters), binding wildcard to the remaining path
after that slash.  Outside that domain the claim fails: see
wildcard_metachar_counterexample. -/
theorem wildcard_template_matching (t : String)
    (hwc : (createPathPattern t).tail = PatTail.wildcard)
    (hplain : litsPlain (createPathPattern t).parts = true)
    (p0 : String) (caps : List (List Char))
    (hp : matchParts (createPathPattern t).parts PatTail.exact p0.data =
      some (caps, none)) :
    (∃ ps, patMatch (createPathPattern t) p0 = some ps ∧
        alGet ps "wildcard" = some "") ∧
    (∃ ps, patMatch (createPathPattern t) (p0 ++ "/") = some ps ∧
        alGet ps "wildcard" = some "") ∧
    (∀ rest : String, rest.data.all jsDotOk = true →
      ∃ ps, patMatch (createPathPattern t) (p0 ++ "/" ++ rest) = some ps ∧
        alGet ps "wildcard" = some rest) := by
  obtain ⟨hss, hparts, hnames⟩ := createPathPattern_wildcard t hwc
  have hsegok : SegOk (createPathPattern t).parts := by
    rw [hparts]
    exact SegOk_dropLast _ (SegOk_dropLast _
      (SegOk_rewrite t.data.length t.data (Nat.le_refl _)))
  have hmain := seg_wildcard_extend (createPathPattern t).parts hsegok p0.data caps hp
  have hcapslen : caps.length = segCount (createPathPattern t).parts :=
    capsLen _ _ _ _ _ hp
  obtain ⟨qs, hqs, hdropqs⟩ := endsSlashStar_decomp _ hss
  have hnameslen : (rewriteParams t.data).2.length = (caps.map some).length := by
    rw [List.length_map, hcapslen, hparts, hdropqs]
    have h1 := namesLen t.data.length t.data (Nat.le_refl _)
    rw [hqs, segCount_append] at h1
    simp only [segCount] at h1
    omega
  refine ⟨?_, ?_, ?_⟩
  · refine ⟨assignParams [] (createPathPattern t).paramNames
      (caps.map some ++ [none]), ?_, ?_⟩
    · simp only [patMatch, hwc, if_pos]
      rw [hmain.1]
      simp
    · rw [hnames]
      simpa using alGet_assignParams_wildcard (rewriteParams t.data).2
        (caps.map some) [] none hnameslen
  · have hb := hmain.2 [] rfl
    have hdata : (p0 ++ "/").data = p0.data ++ '/' :: [] := by
      rw [String.data_append]
    refine ⟨assignParams [] (createPathPattern t).paramNames
      (caps.map some ++ [some []]), ?_, ?_⟩
    · simp only [patMatch, hwc, if_pos]
      rw [hdata, hb]
      simp
    · rw [hnames]
      simpa using alGet_assignParams_wildcard (rewriteParams t.data).2
        (caps.map some) [] (some []) hnameslen
  · intro rest hrest
    have hc := hmain.2 rest.data hrest
    have hdata2 : (p0 ++ "/" ++ rest).data = p0.data ++ '/' :: rest.data := by
      rw [String.data_append, String.data_append, List.append_assoc]
      rfl
    refine ⟨assignParams [] (createPathPattern t).paramNames
      (caps.map some ++ [some rest.data]), ?_, ?_⟩
    · simp only [patMatch, hwc, if_pos]
      rw [hdata2, hc]
      simp
    · rw [hnames]
      have hval := alGet_assignParams_wildcard (rewriteParams t.data).2
        (caps.map some) [] (some rest.data) hnameslen
      have hstr : rest.data.asString = rest := rfl
      simpa [hstr] using hval

/-- Witness for wildcard_template_matching at the template /files/* and
prefix path /files. -/
theorem wildcard_template_matching_witness :
    (∃ ps, patMatch (createPathPattern "/files/*") "/files" = some ps ∧
        alGet ps "wildcard" = some "") ∧
    (∃ ps, patMatch (createPathPattern "/files/*") ("/files" ++ "/") = some ps ∧
        alGet ps "wildcard" = some "") ∧
    (∀ rest : String, rest.data.all jsDotOk = true →
      ∃ ps, patMatch (createPathPattern "/files/*") ("/files" ++ "/" ++ rest) =
          some ps ∧
        alGet ps "wildcard" = some rest) :=
  wildcard_template_matching "/files/*" (by decide) (by decide) "/files" []
    (by decide)

/-- Witness for internal_error_hidden: a throwing handler with debug off
yields the generic 500 body. -/
theorem internal_error_hidden_witness :
    (requestHandler demoCfgOff [] demoRouter8 jsonParse0 formParse0 demoReq5).statusCode
        = 500 ∧
    (requestHandler demoCfgOff [] demoRouter8 jsonParse0 formParse0 demoReq5).body =
      RespBody.obj [("error", "Internal Server Error"),
        ("message", if demoCfgOff.debug then "boom" else "An unexpected error occurred")] :=
  (internal_error_hidden demoCfgOff [] jsonParse0 formParse0).1
    demoRouter8 demoReq5 ParsedBody.empty "boom"
    ⟨setSecurityHeaders (setCorsHeaders [] "" none) false false, []⟩
    (by decide) rfl rfl

end Mikro
